import Mathlib

/-!
Verification of the cl-hospitality-ticket-alert repository.

The Python sources (src/scraper.py, src/run_once.py, src/notifier.py) are
shallowly embedded below.  Prices are modelled in exact integer
euro-cents: every price kept by the extractor's sanity bound [10, 50000]
has at most two decimal digits, a range on which Python float parsing,
comparison, equality (set dedup) and sorting agree exactly with integer
cent arithmetic scaled by 100.  `\d` and `\s` of the Python regexes are
modelled on their ASCII parts (the monitored pages and all claims are
ASCII).
-/

namespace TicketAlert

/-- Python `min` over a list (`none` on the empty list). -/
def listMin {α : Type} [LinearOrder α] : List α → Option α
  | [] => none
  | x :: xs =>
    some (match listMin xs with
          | none => x
          | some m => min x m)


def setInsert {α : Type} [LinearOrder α] (x : α) : List α → List α
  | [] => [x]
  | y :: ys =>
    if x < y then x :: y :: ys
    else if x = y then y :: ys
    else y :: setInsert x ys


def sortedSet {α : Type} [LinearOrder α] (l : List α) : List α :=
  l.foldr setInsert []


/-! ### Price extraction (src/scraper.py, `_extract_prices_from_text`)

The four patterns `€\s*([\d,]+(?:\.\d{1,2})?)`, `EUR\s*(...)`,
`(...)\s*€`, `(...)\s*EUR` (IGNORECASE) are executed with Python's
leftmost / greedy-with-backtracking semantics: each quantifier's
alternatives are enumerated longest first and the first globally
successful combination wins. -/

/-- The regex class `\d` (ASCII part). -/
def isDigitCh (c : Char) : Bool := c.isDigit


/-- The regex class `[\d,]` (ASCII part). -/
def isNumCh (c : Char) : Bool := c.isDigit || c = ','


/-- The regex class `\s` (ASCII part). -/
def isSpaceCh (c : Char) : Bool :=
  c = ' ' || c = '\t' || c = '\n' || c = '\x0d' || c = '\x0b' || c = '\x0c'


/-- Backtracking alternatives of a greedy `p*`, longest first; an
alternative is (consumed prefix, remaining input). -/
def starChoices (p : Char → Bool) : List Char → List (List Char × List Char)
  | [] => [([], [])]
  | c :: rest =>
    if p c then
      ((starChoices p rest).map (fun t => (c :: t.1, t.2))) ++ [([], c :: rest)]
    else [([], c :: rest)]


/-- Backtracking alternatives of a greedy `p+`, longest first. -/
def plusChoices (p : Char → Bool) : List Char → List (List Char × List Char)
  | [] => []
  | c :: rest =>
    if p c then (starChoices p rest).map (fun t => (c :: t.1, t.2)) else []


/-- Backtracking alternatives of the greedy optional group
`(?:\.\d{1,2})?`: two fraction digits, then one, then the empty match. -/
def fracChoices : List Char → List (List Char × List Char)
  | [] => [([], [])]
  | c :: rest =>
    if c = '.' then
      match rest with
      | [] => [([], c :: rest)]
      | d :: rest2 =>
        if isDigitCh d then
          match rest2 with
          | [] => [([c, d], []), ([], c :: rest)]
          | e :: rest3 =>
            if isDigitCh e then
              [([c, d, e], rest3), ([c, d], e :: rest3), ([], c :: rest)]
            else [([c, d], e :: rest3), ([], c :: rest)]
        else [([], c :: rest)]
    else [([], c :: rest)]


/-- Backtracking alternatives of the capture group
`[\d,]+(?:\.\d{1,2})?` (the outer quantifier backtracks last). -/
def numChoices (s : List Char) : List (List Char × List Char) :=
  (plusChoices isNumCh s).flatMap
    (fun t => (fracChoices t.2).map (fun f => (t.1 ++ f.1, f.2)))


/-- The literal `€`. -/
def litEuro : List Char → Option (List Char)
  | c :: r => if c = '€' then some r else none
  | [] => none


/-- The literal `EUR` under IGNORECASE (ASCII case folding). -/
def litEUR : List Char → Option (List Char)
  | a :: b :: c :: r =>
    if (a = 'E' || a = 'e') && (b = 'U' || b = 'u') && (c = 'R' || c = 'r') then
      some r
    else none
  | _ => none


/-- Match `tok \s* ([\d,]+(?:\.\d{1,2})?)` at the head of the input;
returns the capture and the number of consumed chars. -/
def mkHeadMatcher (tok : List Char → Option (List Char)) (s : List Char) :
    Option (List Char × Nat) :=
  (tok s).bind (fun r1 =>
    (starChoices isSpaceCh r1).findSome? (fun sp =>
      (numChoices sp.2).findSome? (fun t => some (t.1, s.length - t.2.length))))


/-- Match `([\d,]+(?:\.\d{1,2})?) \s* tok` at the head of the input. -/
def mkTailMatcher (tok : List Char → Option (List Char)) (s : List Char) :
    Option (List Char × Nat) :=
  (numChoices s).findSome? (fun t =>
    (starChoices isSpaceCh t.2).findSome? (fun sp =>
      (tok sp.2).map (fun r3 => (t.1, s.length - r3.length))))


def matchP1 : List Char → Option (List Char × Nat) := mkHeadMatcher litEuro

def matchP2 : List Char → Option (List Char × Nat) := mkHeadMatcher litEUR

def matchP3 : List Char → Option (List Char × Nat) := mkTailMatcher litEuro

def matchP4 : List Char → Option (List Char × Nat) := mkTailMatcher litEUR

/-- Fuel-indexed finditer scan; one unit of fuel per input char is enough
because every match consumes at least one char. -/
def scanAllF (p : List Char → Option (List Char × Nat)) :
    Nat → List Char → List (List Char)
  | 0, _ => []
  | _ + 1, [] => []
  | fuel + 1, c :: rest =>
    match p (c :: rest) with
    | some t => t.1 :: scanAllF p fuel ((c :: rest).drop (max t.2 1))
    | none => scanAllF p fuel rest

/-- `re.finditer`: scan left to right, collect non-overlapping matches,
resume right after each match (our patterns never match empty). -/
def scanAll (p : List Char → Option (List Char × Nat)) (s : List Char) :
    List (List Char) :=
  scanAllF p s.length s


def charVal (c : Char) : ℕ := c.toNat - 48

/-- Value of a most-significant-first digit string. -/
def digitsToNat (l : List Char) : ℕ := l.foldl (fun n c => 10 * n + charVal c) 0

/-- Python `float(raw)` on the comma-stripped capture, in euro-cents;
`none` models the caught `ValueError` (empty string).  The capture group
guarantees at most two fraction digits, on which the cent scaling
`int + frac / 10^len = (100*int + frac*10^(2-len)) / 100` is exact. -/
def parseRaw (cap : List Char) : Option ℤ :=
  let raw := cap.filter (· != ',')
  if raw.isEmpty then none
  else
    let ip := raw.takeWhile (· != '.')
    let fp := (raw.dropWhile (· != '.')).drop 1
    some ((100 * digitsToNat ip + digitsToNat fp * 10 ^ (2 - fp.length) : ℕ) : ℤ)

/-- One euro in cents, to state claim-level prices readably. -/
def euro (n : ℕ) : ℤ := 100 * n

/-- One pattern's contribution to `found`: finditer over the text, strip
commas, parse, keep only values inside the sanity bound [10, 50000]
(in cents: [1000, 5000000]). -/
def foundOf (p : List Char → Option (List Char × Nat)) (text : List Char) :
    List ℤ :=
  (scanAll p text).filterMap (fun cap =>
    (parseRaw cap).bind (fun v =>
      if euro 10 ≤ v ∧ v ≤ euro 50000 then some v else none))

/-- `_extract_prices_from_text` of src/scraper.py: all four patterns'
survivors, deduplicated and sorted ascending. -/
def _extract_prices_from_text (text : List Char) : List ℤ :=
  sortedSet (foundOf matchP1 text ++ foundOf matchP2 text ++
             foundOf matchP3 text ++ foundOf matchP4 text)


/-! ### Portal fetcher (src/scraper.py) -/

/-- Python `max` over a list (`none` on the empty list). -/
def listMax {α : Type} [LinearOrder α] : List α → Option α
  | [] => none
  | x :: xs =>
    some (match listMax xs with
          | none => x
          | some m => max x m)


/-- The `TicketResult` dataclass of src/scraper.py (prices in cents). -/
structure TicketResult where
  game_name : String
  url : String
  prices : List ℤ
  min_price : Option ℤ
  max_price : Option ℤ
  currency : String := "EUR"
  error : Option String := none
deriving DecidableEq


/-- Python truthiness of the optional `error` string field. -/
def errTruthy : Option String → Bool
  | none => false
  | some s => s != ""


/-- Outcome of `_scrape_with_playwright` (the external render capability,
with its internal networkidle → domcontentloaded fallback folded in):
rendered body text, a `PWTimeout` from both waits, or any other fault. -/
inductive RenderResult where
  | ok (text : List Char)
  | timeout (msg : String)
  | fault (msg : String)
deriving DecidableEq


/-- `fetch_ticket_prices` of src/scraper.py.  `allowed` is the value of
`_is_allowed_by_robots(url)`; the second component of the result records
whether the render capability was invoked. -/
def fetch_ticket_prices (game_name url : String) (allowed : Bool)
    (render : RenderResult) : TicketResult × Bool :=
  if !allowed then
    ({ game_name := game_name, url := url, prices := [], min_price := none,
       max_price := none,
       error := some "Blocked by robots.txt — skipping to stay compliant" },
     false)
  else
    match render with
    | RenderResult.ok text =>
      let prices := _extract_prices_from_text text
      ({ game_name := game_name, url := url, prices := prices,
         min_price := listMin prices, max_price := listMax prices }, true)
    | RenderResult.timeout m =>
      ({ game_name := game_name, url := url, prices := [], min_price := none,
         max_price := none, error := some ("Page load timed out: " ++ m) },
       true)
    | RenderResult.fault m =>
      ({ game_name := game_name, url := url, prices := [], min_price := none,
         max_price := none, error := some m }, true)


/-! ### Single run (src/run_once.py) -/

def THRESHOLD_LOW : ℤ := euro 100

def THRESHOLD_HIGH : ℤ := euro 500

def ALERT_WINDOW_START : ℕ := 9

def ALERT_WINDOW_END : ℕ := 17

def MAX_ALERTS_PER_DAY : ℤ := 10

/-- The fixture configuration entries of `GAMES`. -/
structure Game where
  name : String
  p1travel_url : String
  champions_travel_url : String
deriving DecidableEq


def GAMES : List Game :=
  [{ name := "Arsenal vs TBC",
     p1travel_url := "https://www.p1travel.com/en/football/champions-league/arsenal-vs-tbc-date-tbc",
     champions_travel_url := "https://champions-travel.com/tickets/uefa-champions-league?arsenal-v-tbc" },
   { name := "Manchester City vs TBC",
     p1travel_url := "https://www.p1travel.com/en/football/champions-league/manchester-city-vs-tbc-date-tbc",
     champions_travel_url := "https://champions-travel.com/tickets/uefa-champions-league?manchester-city-v-tbc" },
   { name := "Chelsea vs TBC",
     p1travel_url := "https://www.p1travel.com/en/football/champions-league/chelsea-vs-tbc-date-tbc",
     champions_travel_url := "https://champions-travel.com/tickets/uefa-champions-league?chelsea-v-tbc" }]

/-- `cheapest_in_range` of src/run_once.py; the threshold globals are
passed explicitly. -/
def cheapest_in_range (low high : ℤ) (result : Option TicketResult) :
    Option ℤ :=
  match result with
  | none => none
  | some r =>
    if errTruthy r.error || r.prices.isEmpty then none
    else listMin (r.prices.filter (fun p => decide (low ≤ p) && decide (p ≤ high)))

/-- The status dict produced by `portal_status`. -/
structure Status where
  ok : Bool
  reason : Option String := none
  best : Option ℤ := none
  url : String
deriving DecidableEq

/-- `portal_status` of src/run_once.py. -/
def portal_status (result : Option TicketResult) (url : String) : Status :=
  match result with
  | none => { ok := false, reason := some "No result returned", url := url }
  | some r =>
    if errTruthy r.error then { ok := false, reason := r.error, url := url }
    else if r.prices.isEmpty then
      { ok := false, reason := some "Page loaded but no prices found", url := url }
    else
      match cheapest_in_range THRESHOLD_LOW THRESHOLD_HIGH (some r) with
      | none =>
        { ok := false, reason := some "Prices found but none in €100–€500",
          url := url }
      | some best => { ok := true, best := some best, url := url }

/-- An entry of the `failed_urls` list. -/
structure FailEntry where
  game_name : String
  portal : String
  url : String
  reason : String
deriving DecidableEq

/-- An entry of the `game_alerts` list. -/
structure Alert where
  game_name : String
  p1travel_url : String
  champions_travel_url : String
  p1_best : Option ℤ
  champs_best : Option ℤ
  threshold_low : ℤ
  threshold_high : ℤ
  cheaper_portal : String
  saving : Option ℤ
  comparison : String
deriving DecidableEq

/-- Body of the per-game evaluation loop of `main` (src/run_once.py
lines 153-206): append an entry to `failed_urls` for each not-ok portal,
skip the game when neither portal is ok, otherwise build the alert entry.
The `best` dict keys are read through `Option.getD`; `portal_status`
always populates them when `ok` holds (`portal_status_ok_best` below). -/
def evalGame (game : Game) (p1 champs : Option TicketResult) :
    List FailEntry × Option Alert :=
  let p1_status := portal_status p1 game.p1travel_url
  let champs_status := portal_status champs game.champions_travel_url
  let failed :=
    (if p1_status.ok then [] else
      [{ game_name := game.name, portal := "P1 Travel", url := p1_status.url,
         reason := p1_status.reason.getD "" }]) ++
    (if champs_status.ok then [] else
      [{ game_name := game.name, portal := "Champions Travel",
         url := champs_status.url, reason := champs_status.reason.getD "" }])
  if !p1_status.ok && !champs_status.ok then (failed, none)
  else
    let cmp : String × Option ℤ × String :=
      if p1_status.ok && champs_status.ok then
        (if p1_status.best.getD 0 ≤ champs_status.best.getD 0 then "P1 Travel"
         else "Champions Travel",
         some |p1_status.best.getD 0 - champs_status.best.getD 0|, "both")
      else if p1_status.ok then ("P1 Travel", none, "p1_only")
      else ("Champions Travel", none, "champs_only")
    (failed,
     some { game_name := game.name, p1travel_url := game.p1travel_url,
            champions_travel_url := game.champions_travel_url,
            p1_best := p1_status.best, champs_best := champs_status.best,
            threshold_low := THRESHOLD_LOW, threshold_high := THRESHOLD_HIGH,
            cheaper_portal := cmp.1, saving := cmp.2.1, comparison := cmp.2.2 })


/-! #### Persistent daily-count state -/

/-- Observable content of the state file: absent; `invalid` — unreadable
or not valid JSON, so the `json.loads` line raises and both readers'
`except` clauses take over; `nonObject` — valid JSON that is not a JSON
object, where `json.loads` succeeds and the later `data.get` raises
`AttributeError` (caught by `get_daily_count`'s enclosing `try`, but
uncaught in `increment_daily_count`, whose `try` guards only the
`json.loads` line); or an object with optional `date` and `count`
fields.  The `count` field carries the only shapes the program itself
ever writes: absent or a JSON integer.  A hand-edited non-integer
`count` is outside this model: paired with today's date it makes the
Python crash with `TypeError` at the daily-cap comparison
`get_daily_count() >= MAX_ALERTS_PER_DAY` in `main`, before any fetch,
delivery or state-file write, and paired with any other date it is
discarded by the date-mismatch reset exactly like an integer one. -/
inductive FileState where
  | absent
  | invalid
  | nonObject
  | valid (date : Option String) (count : Option ℤ)
deriving DecidableEq


/-- `get_daily_count` of src/run_once.py: 0 for an absent file; the
whole body sits in its `try`, so both the `json.loads` failure on an
unreadable/unparsable file and the `data.get` `AttributeError` on a
non-object JSON value are caught and return 0; otherwise
`data.get("count", 0)` when the stored date equals today, and 0 on a
date mismatch. -/
def get_daily_count (today : String) : FileState → ℤ
  | FileState.absent => 0
  | FileState.invalid => 0
  | FileState.nonObject => 0
  | FileState.valid date count => if date = some today then count.getD 0 else 0


/-- `increment_daily_count` of src/run_once.py.  Its `try/except` guards
only the `json.loads` read, whose fallback is the empty dict (absent,
unreadable and unparsable files all reset safely); on a non-object JSON
value `json.loads` succeeds and the subsequent `data.get("date")`
raises an uncaught `AttributeError` (modelled as `none`).  On an
object, a date mismatch resets to `{today, 0}`; then
`data["count"] += 1` is written back — it raises an uncaught `KeyError`
(also `none`) when the dict kept today's date but has no `count` key. -/
def increment_daily_count (today : String) :
    FileState → Option (FileState × ℤ)
  | FileState.nonObject => none
  | FileState.valid date count =>
    let data := if date ≠ some today then (some today, some (0 : ℤ))
                else (date, count)
    match data.2 with
    | some k => some (FileState.valid data.1 (some (k + 1)), k + 1)
    | none => none
  | _ => some (FileState.valid (some today) (some 1), 1)


/-! #### `main` -/

def in_alert_window (hour : ℕ) : Bool :=
  decide (ALERT_WINDOW_START ≤ hour) && decide (hour < ALERT_WINDOW_END)


/-- The `scrape_tasks` list of `main`. -/
def scrape_tasks : List (String × String × String) :=
  GAMES.map (fun g => (g.name, "P1 Travel", g.p1travel_url)) ++
  GAMES.map (fun g => (g.name, "Champions Travel", g.champions_travel_url))


/-- The environment of one run: current local hour, today's date string,
state-file content, the fetch outcome of every (game, portal) task, and
whether `notifier.send` would succeed. -/
structure RunInput where
  hour : ℕ
  today : String
  state : FileState
  results : String → String → TicketResult
  sendOk : Bool


/-- Process termination: `sys.exit(code)` / normal return, or an uncaught
exception escaping `main`. -/
inductive ExitKind where
  | normal (code : ℕ)
  | crash
deriving DecidableEq


/-- Observable effects of one run: exit kind, final state-file content,
number of fetch tasks submitted to the pool, whether delivery was
invoked, number of state-file writes, and the two evaluation lists. -/
structure RunOutput where
  exit : ExitKind
  finalState : FileState
  tasks : ℕ
  sendAttempted : Bool
  writes : ℕ
  alerts : List Alert
  failures : List FailEntry


/-- The per-game evaluation results collected by `main` after the fan-in
barrier (`raw` holds every completed task's result). -/
def run_evald (inp : RunInput) : List (List FailEntry × Option Alert) :=
  GAMES.map (fun g =>
    evalGame g (some (inp.results g.name "P1 Travel"))
               (some (inp.results g.name "Champions Travel")))

/-- The `game_alerts` list built by `main`. -/
def run_game_alerts (inp : RunInput) : List Alert :=
  (run_evald inp).filterMap (fun t => t.2)

/-- The `failed_urls` list built by `main`. -/
def run_failed_urls (inp : RunInput) : List FailEntry :=
  (run_evald inp).flatMap (fun t => t.1)

/-- `main` of src/run_once.py over an abstract run environment: alert
window gate, daily-cap gate, parallel fetch fan-out, per-game
evaluation, the nothing-to-report early exit, delivery, and the
daily-count update. -/
def main (inp : RunInput) : RunOutput :=
  if !in_alert_window inp.hour then
    { exit := ExitKind.normal 0, finalState := inp.state, tasks := 0,
      sendAttempted := false, writes := 0, alerts := [], failures := [] }
  else if MAX_ALERTS_PER_DAY ≤ get_daily_count inp.today inp.state then
    { exit := ExitKind.normal 0, finalState := inp.state, tasks := 0,
      sendAttempted := false, writes := 0, alerts := [], failures := [] }
  else
    let game_alerts := run_game_alerts inp
    let failed_urls := run_failed_urls inp
    if game_alerts.isEmpty && failed_urls.isEmpty then
      { exit := ExitKind.normal 0, finalState := inp.state,
        tasks := scrape_tasks.length, sendAttempted := false, writes := 0,
        alerts := game_alerts, failures := failed_urls }
    else if inp.sendOk then
      match increment_daily_count inp.today inp.state with
      | some t =>
        { exit := ExitKind.normal 0, finalState := t.1,
          tasks := scrape_tasks.length, sendAttempted := true, writes := 1,
          alerts := game_alerts, failures := failed_urls }
      | none =>
        { exit := ExitKind.crash, finalState := inp.state,
          tasks := scrape_tasks.length, sendAttempted := true, writes := 0,
          alerts := game_alerts, failures := failed_urls }
    else
      { exit := ExitKind.normal 1, finalState := inp.state,
        tasks := scrape_tasks.length, sendAttempted := true, writes := 0,
        alerts := game_alerts, failures := failed_urls }


/-! ### Rendering extracted prices back to text (claim C9)

`extract_as_text` is not part of src/; it is the spec's name for "a
rendering of already-extracted values in one of the recognized currency
forms". -/

/-- The ASCII char of a decimal digit. -/
def toDig : ℕ → Char
  | 0 => '0' | 1 => '1' | 2 => '2' | 3 => '3' | 4 => '4'
  | 5 => '5' | 6 => '6' | 7 => '7' | 8 => '8' | _ => '9'

/-- Decimal digit chars of a natural number, most significant first. -/
def natToDigCh (n : ℕ) : List Char := ((Nat.digits 10 n).map toDig).reverse

/-- Decimal rendering of a cent remainder r < 100: nothing for .00, one
digit for a multiple of 10, else two digits. -/
def fracRender (r : ℕ) : List Char :=
  if r = 0 then []
  else if r % 10 = 0 then ['.', toDig (r / 10)]
  else ['.', toDig (r / 10), toDig (r % 10)]

/-- Decimal numeral of a (nonnegative) cent amount. -/
def numeralOf (v : ℤ) : List Char :=
  natToDigCh (v.toNat / 100) ++ fracRender (v.toNat % 100)

/-- The four recognized currency forms. -/
inductive Form where
  | f1 | f2 | f3 | f4
deriving DecidableEq

/-- A numeral wrapped in one currency form: `€150`, `EUR 150`, `150€`,
`150 EUR`. -/
def renderItem : Form → List Char → List Char
  | Form.f1, n => '€' :: n
  | Form.f2, n => 'E' :: 'U' :: 'R' :: ' ' :: n
  | Form.f3, n => n ++ ['€']
  | Form.f4, n => n ++ [' ', 'E', 'U', 'R']

/-- Modelled from the spec: `extract_as_text` (src/ has no such function;
§8 of the spec speaks of "a rendering of already-extracted values" in the
recognized currency forms).  Each value is rendered in the chosen form,
items separated by `;`. -/
def extract_as_text (f : Form) (vs : List ℤ) : List Char :=
  vs.flatMap (fun v => renderItem f (numeralOf v) ++ [';'])

/-- Value of a most-significant-first digit list. -/
def natValN (l : List ℕ) : ℕ := l.foldl (fun a d => 10 * a + d) 0

/-- Chars allowed inside a rendered numeral. -/
def DigDot (l : List Char) : Prop := ∀ c ∈ l, isDigitCh c = true ∨ c = '.'

/-- The shapes the fraction part of a capture can take. -/
def FracShape (t : List Char) : Prop :=
  t = [] ∨ (∃ d, isDigitCh d = true ∧ t = ['.', d]) ∨
    (∃ d e, isDigitCh d = true ∧ isDigitCh e = true ∧ t = ['.', d, e])

/-- A list on which the capture group `[\d,]+(?:\.\d{1,2})?` cannot start
nor continue. -/
def StopAfterNum (rest : List Char) : Prop :=
  rest = [] ∨ ∃ c t, rest = c :: t ∧ isNumCh c = false ∧ c ≠ '.'

/-- Shape of a rendered numeral: a nonempty run of digits followed by an
optional fraction part. -/
def Numeral (n : List Char) : Prop :=
  ∃ a f, n = a ++ f ∧ a ≠ [] ∧ (∀ c ∈ a, isDigitCh c = true) ∧ FracShape f

/-- A scrape result carrying a hard failure, for concrete run inputs. -/
def errorResult (name url : String) : TicketResult :=
  { game_name := name, url := url, prices := [], min_price := none,
    max_price := none, error := some "Page load timed out: timeout" }

/-- Run input: window open, hand-edited state file holding today's date
but no `count` field, every fetch failing, delivery succeeding. -/
def crashRunInput : RunInput :=
  { hour := 10, today := "2026-10-12",
    state := FileState.valid (some "2026-10-12") none,
    results := errorResult, sendOk := true }

/-- Run input: window open, state file holding valid JSON that is not an
object, every fetch failing, delivery succeeding. -/
def nonObjectRunInput : RunInput :=
  { hour := 10, today := "2026-10-12", state := FileState.nonObject,
    results := errorResult, sendOk := true }

/-- Run input: window open, no state file, every fetch failing, delivery
failing. -/
def failSendRunInput : RunInput :=
  { hour := 10, today := "2026-10-12", state := FileState.absent,
    results := errorResult, sendOk := false }

/-- Run input: like `failSendRunInput` but delivery succeeds. -/
def okSendRunInput : RunInput := { failSendRunInput with sendOk := true }

/-- Run input outside the alert window. -/
def nightRunInput : RunInput := { failSendRunInput with hour := 3 }

/-- Run input inside the window but at the daily cap. -/
def cappedRunInput : RunInput :=
  { failSendRunInput with
    state := FileState.valid (some "2026-10-12") (some 10) }

/-! ### Lemmas and claim theorems -/

theorem listMin_eq_none_iff {α : Type} [LinearOrder α] (l : List α) :
    listMin l = none ↔ l = [] := by
  cases l <;> simp [listMin]


theorem listMin_mem {α : Type} [LinearOrder α] {l : List α} {v : α}
    (h : listMin l = some v) : v ∈ l := by
  induction l generalizing v with
  | nil => simp [listMin] at h
  | cons x xs ih =>
    simp only [listMin] at h
    cases hx : listMin xs with
    | none =>
      rw [hx] at h
      simp only [Option.some.injEq] at h
      simp [← h]
    | some m =>
      rw [hx] at h
      simp only [Option.some.injEq] at h
      rcases min_choice x m with h1 | h1
      · rw [← h, h1]; simp
      · rw [← h, h1]
        exact List.mem_cons_of_mem _ (ih hx)


theorem listMin_le {α : Type} [LinearOrder α] {l : List α} {v : α}
    (h : listMin l = some v) : ∀ w ∈ l, v ≤ w := by
  induction l generalizing v with
  | nil => simp
  | cons x xs ih =>
    intro w hw
    simp only [listMin] at h
    cases hx : listMin xs with
    | none =>
      rw [hx] at h
      have hxs : xs = [] := (listMin_eq_none_iff xs).mp hx
      subst hxs
      simp at h hw
      simp [h, hw]
    | some m =>
      rw [hx] at h
      simp only [Option.some.injEq] at h
      rcases List.mem_cons.mp hw with h2 | hw
      · rw [h2]; exact h ▸ min_le_left x m
      · exact le_trans (h ▸ min_le_right x m) (ih hx w hw)

/-- Ordered insertion skipping duplicates; `sortedSet` below models
Python's `sorted(set(xs))` on a list of values. -/
theorem mem_setInsert {α : Type} [LinearOrder α] (x z : α) (l : List α) :
    z ∈ setInsert x l ↔ z = x ∨ z ∈ l := by
  induction l with
  | nil => simp [setInsert]
  | cons y ys ih =>
    by_cases h1 : x < y
    · simp [setInsert, h1]
    · by_cases h2 : x = y
      · subst h2; simp [setInsert, h1]
      · simp [setInsert, h1, h2, ih]
        tauto


theorem chain_setInsert {α : Type} [LinearOrder α] (x : α) (l : List α)
    (h : List.Chain' (· < ·) l) : List.Chain' (· < ·) (setInsert x l) := by
  induction l with
  | nil => simp [setInsert]
  | cons y ys ih =>
    by_cases h1 : x < y
    · rw [show setInsert x (y :: ys) = x :: y :: ys by simp [setInsert, h1]]
      exact List.chain'_cons.mpr ⟨h1, h⟩
    · by_cases h2 : x = y
      · rw [show setInsert x (y :: ys) = y :: ys by simp [setInsert, h1, h2]]
        exact h
      · have hyx : y < x := by
          rcases lt_trichotomy x y with h' | h' | h'
          · exact absurd h' h1
          · exact absurd h' h2
          · exact h'
        have hys : List.Chain' (· < ·) ys := h.tail
        have hins := ih hys
        rw [show setInsert x (y :: ys) = y :: setInsert x ys by
              simp [setInsert, h1, h2]]
        rw [List.chain'_cons']
        refine ⟨?_, hins⟩
        intro z hz
        cases ys with
        | nil =>
          rw [show setInsert x [] = [x] from rfl] at hz
          simp at hz
          exact hz ▸ hyx
        | cons w ws =>
          have hyw : y < w := (List.chain'_cons.mp h).1
          by_cases hxw : x < w
          · rw [show setInsert x (w :: ws) = x :: w :: ws by
                  simp [setInsert, hxw]] at hz
            simp at hz
            exact hz ▸ hyx
          · by_cases hxw2 : x = w
            · rw [show setInsert x (w :: ws) = w :: ws by
                    simp [setInsert, hxw, hxw2]] at hz
              simp at hz
              exact hz ▸ hyw
            · rw [show setInsert x (w :: ws) = w :: setInsert x ws by
                    simp [setInsert, hxw, hxw2]] at hz
              simp at hz
              exact hz ▸ hyw


theorem chain_sortedSet {α : Type} [LinearOrder α] (l : List α) :
    List.Chain' (· < ·) (sortedSet l) := by
  induction l with
  | nil => simp [sortedSet]
  | cons x xs ih => exact chain_setInsert x _ ih


theorem mem_sortedSet {α : Type} [LinearOrder α] (l : List α) (z : α) :
    z ∈ sortedSet l ↔ z ∈ l := by
  induction l with
  | nil => simp [sortedSet]
  | cons x xs ih =>
    show z ∈ setInsert x (sortedSet xs) ↔ _
    rw [mem_setInsert, ih]
    simp


theorem chain_lt_head {α : Type} [LinearOrder α] {x : α} {l : List α}
    (h : List.Chain' (· < ·) (x :: l)) : ∀ z ∈ l, x < z := by
  have hp := List.chain'_iff_pairwise.mp h
  exact (List.pairwise_cons.mp hp).1

/-- A strictly increasing list is determined by its set of members. -/
theorem chain_lt_eq_of_mem {α : Type} [LinearOrder α] :
    ∀ (xs ys : List α), List.Chain' (· < ·) xs → List.Chain' (· < ·) ys →
      (∀ z, z ∈ xs ↔ z ∈ ys) → xs = ys := by
  intro xs
  induction xs with
  | nil =>
    intro ys _ _ hmem
    cases ys with
    | nil => rfl
    | cons y ys' => exact absurd ((hmem y).mpr (by simp)) (by simp)
  | cons x xs' ih =>
    intro ys hxs hys hmem
    cases ys with
    | nil => exact absurd ((hmem x).mp (by simp)) (by simp)
    | cons y ys' =>
      have hxlt : ∀ z ∈ xs', x < z := chain_lt_head hxs
      have hylt : ∀ z ∈ ys', y < z := chain_lt_head hys
      have hxy : x = y := by
        have hx : x ∈ y :: ys' := (hmem x).mp (by simp)
        have hy : y ∈ x :: xs' := (hmem y).mpr (by simp)
        rcases List.mem_cons.mp hx with h1 | h1
        · exact h1
        · rcases List.mem_cons.mp hy with h2 | h2
          · exact h2.symm
          · exact absurd (lt_trans (hylt x h1) (hxlt y h2)) (lt_irrefl y)
      subst hxy
      have htl : ∀ z, z ∈ xs' ↔ z ∈ ys' := by
        intro z
        constructor
        · intro hz
          have := (hmem z).mp (List.mem_cons_of_mem x hz)
          rcases List.mem_cons.mp this with h1 | h1
          · exact absurd (h1 ▸ hxlt z hz) (lt_irrefl x)
          · exact h1
        · intro hz
          have := (hmem z).mpr (List.mem_cons_of_mem x hz)
          rcases List.mem_cons.mp this with h1 | h1
          · exact absurd (h1 ▸ hylt z hz) (lt_irrefl x)
          · exact h1
      exact congrArg (x :: ·) (ih ys' hxs.tail hys.tail htl)


theorem sortedSet_eq_of_mem {α : Type} [LinearOrder α] (a b : List α)
    (h : ∀ z, z ∈ a ↔ z ∈ b) : sortedSet a = sortedSet b :=
  chain_lt_eq_of_mem _ _ (chain_sortedSet a) (chain_sortedSet b)
    (fun z => by rw [mem_sortedSet, mem_sortedSet]; exact h z)


theorem sortedSet_of_chain {α : Type} [LinearOrder α] (l : List α)
    (h : List.Chain' (· < ·) l) : sortedSet l = l :=
  chain_lt_eq_of_mem _ _ (chain_sortedSet l) h (fun z => mem_sortedSet l z)


theorem scanAllF_irrel (p : List Char → Option (List Char × Nat)) :
    ∀ (f1 f2 : Nat) (s : List Char), s.length ≤ f1 → s.length ≤ f2 →
      scanAllF p f1 s = scanAllF p f2 s := by
  intro f1
  induction f1 with
  | zero =>
    intro f2 s h1 _
    have : s = [] := List.length_eq_zero.mp (Nat.le_zero.mp h1)
    subst this
    cases f2 <;> rfl
  | succ f1 ih =>
    intro f2 s h1 h2
    cases s with
    | nil => cases f2 <;> rfl
    | cons c rest =>
      cases f2 with
      | zero => simp at h2
      | succ f2' =>
        simp only [scanAllF]
        cases hp : p (c :: rest) with
        | none =>
          simp only [List.length_cons] at h1 h2
          exact ih f2' rest (by omega) (by omega)
        | some t =>
          have hlen : ((c :: rest).drop (max t.2 1)).length ≤ rest.length := by
            simp only [List.length_drop, List.length_cons]
            omega
          simp only [List.length_cons] at h1 h2
          exact congrArg (t.1 :: ·) (ih f2' _ (by omega) (by omega))


theorem scanAll_nil (p : List Char → Option (List Char × Nat)) :
    scanAll p [] = [] := rfl


theorem scanAll_cons (p : List Char → Option (List Char × Nat)) (c : Char)
    (rest : List Char) :
    scanAll p (c :: rest) =
      match p (c :: rest) with
      | some t => t.1 :: scanAll p ((c :: rest).drop (max t.2 1))
      | none => scanAll p rest := by
  show scanAllF p (rest.length + 1) (c :: rest) = _
  simp only [scanAllF]
  cases hp : p (c :: rest) with
  | none =>
    exact scanAllF_irrel p rest.length rest.length rest (le_refl _) (le_refl _)
  | some t =>
    have hlen : ((c :: rest).drop (max t.2 1)).length ≤ rest.length := by
      simp only [List.length_drop, List.length_cons]
      omega
    exact congrArg _ (scanAllF_irrel p rest.length _ _ hlen (le_refl _))

/-- Numeric value of an ASCII digit char. -/
example : _extract_prices_from_text "€150 and €150 and €200".data =
    [euro 150, euro 200] := by decide


example : _extract_prices_from_text "Seats from 1,299.50 EUR or eur 89".data =
    [euro 89, 129950] := by decide


example : _extract_prices_from_text "row 7, €9.99 only, €50001, year 2024".data
    = [] := by decide


theorem portal_status_ok_best (result : Option TicketResult) (url : String)
    (h : (portal_status result url).ok = true) :
    ∃ b, (portal_status result url).best = some b ∧
      cheapest_in_range THRESHOLD_LOW THRESHOLD_HIGH result = some b := by
  match result with
  | none => simp [portal_status] at h
  | some r =>
    simp only [portal_status] at h ⊢
    by_cases he : errTruthy r.error
    · simp [he] at h
    · by_cases hp : r.prices.isEmpty
      · simp [he, hp] at h
      · cases hc : cheapest_in_range THRESHOLD_LOW THRESHOLD_HIGH (some r) with
        | none => simp [he, hp, hc] at h
        | some b =>
          refine ⟨b, ?_, rfl⟩
          simp [he, hp, hc]


/-! #### Helper lemmas about portal statuses and the state file -/

theorem cheapest_some_prices_ne_empty {low high : ℤ} {r : TicketResult} {b : ℤ}
    (hc : cheapest_in_range low high (some r) = some b) :
    r.prices.isEmpty = false := by
  by_cases hp : r.prices.isEmpty
  · simp [cheapest_in_range, hp] at hc
  · simpa using hp

theorem portal_status_of_error (r : TicketResult) (url : String) (s : String)
    (hs : r.error = some s) (hne : s ≠ "") :
    portal_status (some r) url = { ok := false, reason := some s, url := url } := by
  simp [portal_status, hs, errTruthy, hne]

theorem portal_status_of_success_none (r : TicketResult) (url : String)
    (he : r.error = none)
    (hc : cheapest_in_range THRESHOLD_LOW THRESHOLD_HIGH (some r) = none) :
    portal_status (some r) url =
      { ok := false,
        reason := some (if r.prices.isEmpty then "Page loaded but no prices found"
                        else "Prices found but none in €100–€500"),
        url := url } := by
  by_cases hp : r.prices.isEmpty
  · simp [portal_status, he, errTruthy, hp]
  · simp [portal_status, he, errTruthy, hp, hc]

theorem portal_status_of_ok (r : TicketResult) (url : String) (b : ℤ)
    (he : r.error = none)
    (hc : cheapest_in_range THRESHOLD_LOW THRESHOLD_HIGH (some r) = some b) :
    portal_status (some r) url =
      { ok := true, reason := none, best := some b, url := url } := by
  have hp := cheapest_some_prices_ne_empty hc
  simp [portal_status, he, errTruthy, hp, hc]

theorem increment_eq_none_iff (today : String) (st : FileState) :
    increment_daily_count today st = none ↔
      st = FileState.valid (some today) none ∨ st = FileState.nonObject := by
  cases st with
  | absent => simp [increment_daily_count]
  | invalid => simp [increment_daily_count]
  | nonObject => simp [increment_daily_count]
  | valid date count =>
    by_cases hd : date = some today
    · subst hd
      cases count <;> simp [increment_daily_count]
    · simp [increment_daily_count, hd]

theorem increment_spec (today : String) (st : FileState)
    (h : st ≠ FileState.valid (some today) none)
    (hno : st ≠ FileState.nonObject) :
    increment_daily_count today st =
      some (FileState.valid (some today) (some (get_daily_count today st + 1)),
            get_daily_count today st + 1) := by
  cases st with
  | absent => simp [increment_daily_count, get_daily_count]
  | invalid => simp [increment_daily_count, get_daily_count]
  | nonObject => exact absurd rfl hno
  | valid date count =>
    by_cases hd : date = some today
    · subst hd
      cases count with
      | none => exact absurd rfl h
      | some c => simp [increment_daily_count, get_daily_count]
    · simp [increment_daily_count, get_daily_count, hd]

/-! #### Claim C3 -/

/-- C3: for every outcome and range, `cheapest_in_range` returns the
minimum price of the outcome's price set lying within [low, high]
inclusive, and returns `none` exactly when the outcome failed, had no
prices, or had none in range.  (`hwf`: the program never stores an empty
error string.) -/
theorem C3_cheapest_in_range_min (low high : ℤ) (r : TicketResult)
    (hwf : ∀ s, r.error = some s → s ≠ "") :
    (∀ v, cheapest_in_range low high (some r) = some v →
        (v ∈ r.prices ∧ low ≤ v ∧ v ≤ high) ∧
        ∀ w ∈ r.prices, low ≤ w → w ≤ high → v ≤ w) ∧
    (cheapest_in_range low high (some r) = none ↔
        r.error ≠ none ∨ r.prices = [] ∨
          ∀ w ∈ r.prices, ¬(low ≤ w ∧ w ≤ high)) := by
  have herr : errTruthy r.error = true ↔ r.error ≠ none := by
    cases he : r.error with
    | none => simp [errTruthy]
    | some s =>
      have hs := hwf s he
      simp [errTruthy, hs]
  constructor
  · intro v hv
    by_cases he : errTruthy r.error
    · simp [cheapest_in_range, he] at hv
    · by_cases hp : r.prices.isEmpty
      · simp [cheapest_in_range, he, hp] at hv
      · have he' : errTruthy r.error = false := by simpa using he
        have hp' : r.prices.isEmpty = false := by simpa using hp
        rw [show cheapest_in_range low high (some r) =
              listMin (r.prices.filter
                (fun p => decide (low ≤ p) && decide (p ≤ high))) by
              simp [cheapest_in_range, he', hp']] at hv
        have hmem := listMin_mem hv
        have hle := listMin_le hv
        rw [List.mem_filter] at hmem
        refine ⟨⟨hmem.1, ?_, ?_⟩, ?_⟩
        · have := hmem.2
          simp at this
          exact this.1
        · have := hmem.2
          simp at this
          exact this.2
        · intro w hw hlw hwh
          exact hle w (List.mem_filter.mpr ⟨hw, by simp [hlw, hwh]⟩)
  · by_cases he : errTruthy r.error
    · simp [cheapest_in_range, he, herr.mp he]
    · by_cases hp : r.prices.isEmpty
      · have : r.prices = [] := by simpa using hp
        simp [cheapest_in_range, he, hp, this]
      · have hene : ¬ r.error ≠ none := by
          intro hne
          exact he (herr.mpr hne)
        have hpne : r.prices ≠ [] := by simpa using hp
        rw [show cheapest_in_range low high (some r) =
              listMin (r.prices.filter
                (fun p => decide (low ≤ p) && decide (p ≤ high))) by
              simp [cheapest_in_range, he, hp]]
        rw [listMin_eq_none_iff, List.filter_eq_nil_iff]
        constructor
        · intro hall
          refine Or.inr (Or.inr ?_)
          intro w hw hcontra
          exact hall w hw (by simp [hcontra.1, hcontra.2])
        · intro hor w hw
          rcases hor with h1 | h1 | h1
          · exact absurd h1 hene
          · exact absurd h1 hpne
          · have := h1 w hw
            simp only [Bool.and_eq_true, decide_eq_true_eq]
            intro hcontra
            exact this ⟨hcontra.1, hcontra.2⟩

/-- C3 witness: the theorem applied to a concrete successful result with
prices [80, 120, 130] euros and range [100, 500] euros. -/
theorem C3_witness :
    ((euro 120 ∈ [euro 80, euro 120, euro 130] ∧
      euro 100 ≤ euro 120 ∧ euro 120 ≤ euro 500) ∧
     ∀ w ∈ [euro 80, euro 120, euro 130],
       euro 100 ≤ w → w ≤ euro 500 → euro 120 ≤ w) :=
  (C3_cheapest_in_range_min (euro 100) (euro 500)
      { game_name := "g", url := "u",
        prices := [euro 80, euro 120, euro 130],
        min_price := some (euro 80), max_price := some (euro 130) }
      (by intro s hs; simp at hs)).1 (euro 120) (by decide)

/-! #### Claim C10 -/

/-- C10: `get_daily_count` is total and defensive: it returns 0 on an
absent, unreadable, unparsable or field-less state file and whenever the
stored date differs from today, and returns the stored count only when
the file parses and its date equals today. -/
theorem C10_get_daily_count_defensive (today : String) (st : FileState) :
    get_daily_count today st =
      match st with
      | FileState.valid (some d) (some c) => if d = today then c else 0
      | _ => 0 := by
  cases st with
  | absent => rfl
  | invalid => rfl
  | nonObject => rfl
  | valid date count =>
    cases date with
    | none => simp [get_daily_count]
    | some d =>
      cases count with
      | none => by_cases hd : d = today <;> simp [get_daily_count, hd]
      | some c => by_cases hd : d = today <;> simp [get_daily_count, hd]

/-! #### Claim C8 -/

/-- C8 counterexample: on a disallowed URL the fetcher's failure reason
is the literal "Blocked by robots.txt — skipping to stay compliant", not
"blocked by site policy" as the claim states. -/
theorem C8_counterexample :
    (fetch_ticket_prices "g" "u" false (RenderResult.ok [])).1.error ≠
      some "blocked by site policy" ∧
    (fetch_ticket_prices "g" "u" false (RenderResult.ok [])).1.error =
      some "Blocked by robots.txt — skipping to stay compliant" := by
  constructor
  · intro h
    simp [fetch_ticket_prices] at h
  · rfl

/-- C8 (amended): when the crawl-policy check reports the URL as
disallowed, `fetch_ticket_prices` returns a failure outcome whose reason
is "Blocked by robots.txt — skipping to stay compliant", with no prices,
and the render capability is never invoked. -/
theorem C8_blocked_no_render (g u : String) (render : RenderResult) :
    (fetch_ticket_prices g u false render).2 = false ∧
    (fetch_ticket_prices g u false render).1.error =
      some "Blocked by robots.txt — skipping to stay compliant" ∧
    (fetch_ticket_prices g u false render).1.prices = [] := by
  simp [fetch_ticket_prices]

/-! #### Claim C7 -/

/-- C7: whenever the current local hour is outside the [start, end)
alert window or the persisted daily count has reached the maximum, the
run exits with code 0 and issues zero fetch tasks. -/
theorem C7_gates (inp : RunInput)
    (h : inp.hour < ALERT_WINDOW_START ∨ ALERT_WINDOW_END ≤ inp.hour ∨
         MAX_ALERTS_PER_DAY ≤ get_daily_count inp.today inp.state) :
    (main inp).exit = ExitKind.normal 0 ∧ (main inp).tasks = 0 := by
  by_cases hw : in_alert_window inp.hour = true
  · have hcap : MAX_ALERTS_PER_DAY ≤ get_daily_count inp.today inp.state := by
      simp only [in_alert_window, ALERT_WINDOW_START, ALERT_WINDOW_END,
                 Bool.and_eq_true, decide_eq_true_eq] at hw
      rcases h with h1 | h1 | h1
      · simp only [ALERT_WINDOW_START] at h1
        omega
      · simp only [ALERT_WINDOW_END] at h1
        omega
      · exact h1
    simp [main, hw, hcap]
  · simp only [Bool.not_eq_true] at hw
    simp [main, hw]

/-- C7 witness: the theorem applied at 3 AM, and again inside the window
with the stored count at the cap. -/
theorem C7_witness :
    ((main nightRunInput).exit = ExitKind.normal 0 ∧
     (main nightRunInput).tasks = 0) ∧
    ((main cappedRunInput).exit = ExitKind.normal 0 ∧
     (main cappedRunInput).tasks = 0) :=
  ⟨C7_gates nightRunInput (Or.inl (by decide)),
   C7_gates cappedRunInput (Or.inr (Or.inr (by decide)))⟩

/-! #### Claim C1 -/

/-- C1 counterexample: a fixture whose two portal outcomes are both
`Success` with no in-range price is skipped for alerting, but the code
still appends one failure entry per portal, contradicting the claim that
it contributes no entry to the failure list. -/
theorem C1_counterexample :
    evalGame { name := "g", p1travel_url := "uA", champions_travel_url := "uB" }
        (some { game_name := "g (P1 Travel)", url := "uA", prices := [],
                min_price := none, max_price := none })
        (some { game_name := "g (Champions Travel)", url := "uB", prices := [],
                min_price := none, max_price := none }) =
      ([{ game_name := "g", portal := "P1 Travel", url := "uA",
          reason := "Page loaded but no prices found" },
        { game_name := "g", portal := "Champions Travel", url := "uB",
          reason := "Page loaded but no prices found" }], none) := by
  decide

/-- C1 (amended): for every fixture whose two portal outcomes are both
`Success` but neither yields an in-range best price, the fixture
contributes no alert entry, but it does contribute one failure entry per
portal (reason "Page loaded but no prices found" for an empty price set,
"Prices found but none in €100–€500" otherwise). -/
theorem C1_no_alert_but_failures (g : Game) (r1 r2 : TicketResult)
    (h1 : r1.error = none) (h2 : r2.error = none)
    (hc1 : cheapest_in_range THRESHOLD_LOW THRESHOLD_HIGH (some r1) = none)
    (hc2 : cheapest_in_range THRESHOLD_LOW THRESHOLD_HIGH (some r2) = none) :
    (evalGame g (some r1) (some r2)).2 = none ∧
    (evalGame g (some r1) (some r2)).1 =
      [{ game_name := g.name, portal := "P1 Travel", url := g.p1travel_url,
         reason := if r1.prices.isEmpty then "Page loaded but no prices found"
                   else "Prices found but none in €100–€500" },
       { game_name := g.name, portal := "Champions Travel",
         url := g.champions_travel_url,
         reason := if r2.prices.isEmpty then "Page loaded but no prices found"
                   else "Prices found but none in €100–€500" }] := by
  have hs1 := portal_status_of_success_none r1 g.p1travel_url h1 hc1
  have hs2 := portal_status_of_success_none r2 g.champions_travel_url h2 hc2
  constructor <;> simp [evalGame, hs1, hs2]

/-- C1 witness: the amended theorem applied to two empty `Success`
outcomes. -/
theorem C1_witness :
    (evalGame { name := "g", p1travel_url := "uA", champions_travel_url := "uB" }
        (some { game_name := "gA", url := "uA", prices := [],
                min_price := none, max_price := none })
        (some { game_name := "gB", url := "uB", prices := [],
                min_price := none, max_price := none })).2 = none :=
  (C1_no_alert_but_failures
      { name := "g", p1travel_url := "uA", champions_travel_url := "uB" }
      { game_name := "gA", url := "uA", prices := [], min_price := none,
        max_price := none }
      { game_name := "gB", url := "uB", prices := [], min_price := none,
        max_price := none }
      rfl rfl (by decide) (by decide)).1

/-! #### Claim C2 -/

/-- C2: when exactly one portal outcome is a `Failure` and the other a
`Success` with an in-range price, evaluation emits one failure entry for
the failed portal and still produces an alert decision for the fixture
based on the other portal, with comparison naming only that portal
("champs_only" when PortalA failed, "p1_only" when PortalB failed). -/
theorem C2_one_failure_one_alert (g : Game) (rf rs : TicketResult)
    (s : String) (b : ℤ) :
    (rf.error = some s → s ≠ "" → rs.error = none →
      cheapest_in_range THRESHOLD_LOW THRESHOLD_HIGH (some rs) = some b →
      evalGame g (some rf) (some rs) =
        ([{ game_name := g.name, portal := "P1 Travel",
            url := g.p1travel_url, reason := s }],
         some { game_name := g.name, p1travel_url := g.p1travel_url,
                champions_travel_url := g.champions_travel_url,
                p1_best := none, champs_best := some b,
                threshold_low := THRESHOLD_LOW,
                threshold_high := THRESHOLD_HIGH,
                cheaper_portal := "Champions Travel", saving := none,
                comparison := "champs_only" })) ∧
    (rf.error = some s → s ≠ "" → rs.error = none →
      cheapest_in_range THRESHOLD_LOW THRESHOLD_HIGH (some rs) = some b →
      evalGame g (some rs) (some rf) =
        ([{ game_name := g.name, portal := "Champions Travel",
            url := g.champions_travel_url, reason := s }],
         some { game_name := g.name, p1travel_url := g.p1travel_url,
                champions_travel_url := g.champions_travel_url,
                p1_best := some b, champs_best := none,
                threshold_low := THRESHOLD_LOW,
                threshold_high := THRESHOLD_HIGH,
                cheaper_portal := "P1 Travel", saving := none,
                comparison := "p1_only" })) := by
  constructor
  · intro hf hne he hc
    have hs1 := portal_status_of_error rf g.p1travel_url s hf hne
    have hs2 := portal_status_of_ok rs g.champions_travel_url b he hc
    simp [evalGame, hs1, hs2]
  · intro hf hne he hc
    have hs1 := portal_status_of_ok rs g.p1travel_url b he hc
    have hs2 := portal_status_of_error rf g.champions_travel_url s hf hne
    simp [evalGame, hs1, hs2]

/-- C2 witness: PortalA = Failure("timeout"), PortalB = Success([130])
gives one PortalA failure entry and a "champs_only" decision at €130. -/
theorem C2_witness :
    evalGame { name := "g", p1travel_url := "uA", champions_travel_url := "uB" }
        (some { game_name := "gA", url := "uA", prices := [],
                min_price := none, max_price := none, error := some "timeout" })
        (some { game_name := "gB", url := "uB", prices := [euro 130],
                min_price := some (euro 130), max_price := some (euro 130) }) =
      ([{ game_name := "g", portal := "P1 Travel", url := "uA",
          reason := "timeout" }],
       some { game_name := "g", p1travel_url := "uA",
              champions_travel_url := "uB",
              p1_best := none, champs_best := some (euro 130),
              threshold_low := THRESHOLD_LOW, threshold_high := THRESHOLD_HIGH,
              cheaper_portal := "Champions Travel", saving := none,
              comparison := "champs_only" }) :=
  (C2_one_failure_one_alert
      { name := "g", p1travel_url := "uA", champions_travel_url := "uB" }
      { game_name := "gA", url := "uA", prices := [], min_price := none,
        max_price := none, error := some "timeout" }
      { game_name := "gB", url := "uB", prices := [euro 130],
        min_price := some (euro 130), max_price := some (euro 130) }
      "timeout" (euro 130)).1 rfl (by decide) rfl (by decide)

/-! #### Claim C4 -/

/-- C4: when both portals produce an in-range best price the decision has
comparison "both", saving the absolute difference of the two best prices,
and the cheaper portal chosen by `≤` with ties toward P1 Travel
(PortalA). -/
theorem C4_both_portals (g : Game) (r1 r2 : TicketResult) (b1 b2 : ℤ)
    (h1 : r1.error = none) (h2 : r2.error = none)
    (hc1 : cheapest_in_range THRESHOLD_LOW THRESHOLD_HIGH (some r1) = some b1)
    (hc2 : cheapest_in_range THRESHOLD_LOW THRESHOLD_HIGH (some r2) = some b2) :
    evalGame g (some r1) (some r2) =
      ([], some { game_name := g.name, p1travel_url := g.p1travel_url,
                  champions_travel_url := g.champions_travel_url,
                  p1_best := some b1, champs_best := some b2,
                  threshold_low := THRESHOLD_LOW,
                  threshold_high := THRESHOLD_HIGH,
                  cheaper_portal := if b1 ≤ b2 then "P1 Travel"
                                    else "Champions Travel",
                  saving := some |b1 - b2|, comparison := "both" }) := by
  have hs1 := portal_status_of_ok r1 g.p1travel_url b1 h1 hc1
  have hs2 := portal_status_of_ok r2 g.champions_travel_url b2 h2 hc2
  simp [evalGame, hs1, hs2]

/-- C4 witness: PortalA = Success([120]), PortalB = Success([140]) gives
cheaperPortal = P1 Travel and saving €20; equal best prices of €100 give
cheaperPortal = P1 Travel and saving €0. -/
theorem C4_witness :
    (evalGame { name := "g", p1travel_url := "uA", champions_travel_url := "uB" }
        (some { game_name := "gA", url := "uA", prices := [euro 120],
                min_price := some (euro 120), max_price := some (euro 120) })
        (some { game_name := "gB", url := "uB", prices := [euro 140],
                min_price := some (euro 140), max_price := some (euro 140) }) =
      ([], some { game_name := "g", p1travel_url := "uA",
                  champions_travel_url := "uB",
                  p1_best := some (euro 120), champs_best := some (euro 140),
                  threshold_low := THRESHOLD_LOW,
                  threshold_high := THRESHOLD_HIGH,
                  cheaper_portal := "P1 Travel", saving := some (euro 20),
                  comparison := "both" })) ∧
    (evalGame { name := "g", p1travel_url := "uA", champions_travel_url := "uB" }
        (some { game_name := "gA", url := "uA", prices := [euro 100],
                min_price := some (euro 100), max_price := some (euro 100) })
        (some { game_name := "gB", url := "uB", prices := [euro 100],
                min_price := some (euro 100), max_price := some (euro 100) }) =
      ([], some { game_name := "g", p1travel_url := "uA",
                  champions_travel_url := "uB",
                  p1_best := some (euro 100), champs_best := some (euro 100),
                  threshold_low := THRESHOLD_LOW,
                  threshold_high := THRESHOLD_HIGH,
                  cheaper_portal := "P1 Travel", saving := some 0,
                  comparison := "both" })) :=
  ⟨(C4_both_portals
      { name := "g", p1travel_url := "uA", champions_travel_url := "uB" }
      { game_name := "gA", url := "uA", prices := [euro 120],
        min_price := some (euro 120), max_price := some (euro 120) }
      { game_name := "gB", url := "uB", prices := [euro 140],
        min_price := some (euro 140), max_price := some (euro 140) }
      (euro 120) (euro 140) rfl rfl (by decide) (by decide)).trans (by decide),
   (C4_both_portals
      { name := "g", p1travel_url := "uA", champions_travel_url := "uB" }
      { game_name := "gA", url := "uA", prices := [euro 100],
        min_price := some (euro 100), max_price := some (euro 100) }
      { game_name := "gB", url := "uB", prices := [euro 100],
        min_price := some (euro 100), max_price := some (euro 100) }
      (euro 100) (euro 100) rfl rfl (by decide) (by decide)).trans (by decide)⟩

/-! #### Claim C6 -/

/-- C6 counterexample: with a hand-edited state file holding today's date
but no `count` field, a successful delivery is followed by a `KeyError`
in `increment_daily_count`: the run crashes and the counter is never
persisted, contradicting "incremented and persisted exactly once". -/
theorem C6_counterexample :
    crashRunInput.sendOk = true ∧
    (main crashRunInput).sendAttempted = true ∧
    (main crashRunInput).exit = ExitKind.crash ∧
    (main crashRunInput).writes = 0 ∧
    (main crashRunInput).finalState = crashRunInput.state := by
  refine ⟨rfl, ?_, ?_, ?_, ?_⟩ <;> decide

/-- C6 (amended): when delivery fails the run exits with code 1 and the
state file is untouched; when delivery succeeds — and the state file is
neither a hand-edited object holding today's date without a `count`
field nor valid JSON that is not an object — the daily counter is
incremented and persisted exactly once; on either of those two
hand-edited files a successful delivery is followed by an uncaught
exception in `increment_daily_count` (`KeyError` at
`data["count"] += 1` resp. `AttributeError` at `data.get`): the run
crashes and nothing is persisted. -/
theorem C6_delivery_and_counter (inp : RunInput) :
    ((main inp).sendAttempted = true → inp.sendOk = false →
        (main inp).exit = ExitKind.normal 1 ∧
        (main inp).finalState = inp.state ∧ (main inp).writes = 0) ∧
    ((main inp).sendAttempted = true → inp.sendOk = true →
        inp.state ≠ FileState.valid (some inp.today) none →
        inp.state ≠ FileState.nonObject →
        (main inp).exit = ExitKind.normal 0 ∧ (main inp).writes = 1 ∧
        (main inp).finalState =
          FileState.valid (some inp.today)
            (some (get_daily_count inp.today inp.state + 1))) ∧
    ((main inp).sendAttempted = true → inp.sendOk = true →
        (inp.state = FileState.valid (some inp.today) none ∨
         inp.state = FileState.nonObject) →
        (main inp).exit = ExitKind.crash ∧ (main inp).writes = 0 ∧
        (main inp).finalState = inp.state) := by
  by_cases hw : in_alert_window inp.hour = true
  · by_cases hcap : MAX_ALERTS_PER_DAY ≤ get_daily_count inp.today inp.state
    · refine ⟨?_, ?_, ?_⟩ <;> (intro hsa; simp [main, hw, hcap] at hsa)
    · by_cases hempty :
        ((run_game_alerts inp).isEmpty && (run_failed_urls inp).isEmpty) = true
      · refine ⟨?_, ?_, ?_⟩ <;>
          (intro hsa; simp [main, hw, hcap, hempty] at hsa)
      · refine ⟨?_, ?_, ?_⟩
        · intro _ hsend
          simp [main, hw, hcap, hempty, hsend]
        · intro _ hsend hstate hno
          rw [show main inp =
                (match increment_daily_count inp.today inp.state with
                 | some t =>
                   { exit := ExitKind.normal 0, finalState := t.1,
                     tasks := scrape_tasks.length, sendAttempted := true,
                     writes := 1, alerts := run_game_alerts inp,
                     failures := run_failed_urls inp }
                 | none =>
                   { exit := ExitKind.crash, finalState := inp.state,
                     tasks := scrape_tasks.length, sendAttempted := true,
                     writes := 0, alerts := run_game_alerts inp,
                     failures := run_failed_urls inp }) by
                simp [main, hw, hcap, hempty, hsend]]
          rw [increment_spec inp.today inp.state hstate hno]
          exact ⟨rfl, rfl, rfl⟩
        · intro _ hsend hbad
          rw [show main inp =
                (match increment_daily_count inp.today inp.state with
                 | some t =>
                   { exit := ExitKind.normal 0, finalState := t.1,
                     tasks := scrape_tasks.length, sendAttempted := true,
                     writes := 1, alerts := run_game_alerts inp,
                     failures := run_failed_urls inp }
                 | none =>
                   { exit := ExitKind.crash, finalState := inp.state,
                     tasks := scrape_tasks.length, sendAttempted := true,
                     writes := 0, alerts := run_game_alerts inp,
                     failures := run_failed_urls inp }) by
                simp [main, hw, hcap, hempty, hsend]]
          rw [(increment_eq_none_iff inp.today inp.state).mpr hbad]
          exact ⟨rfl, rfl, rfl⟩
  · refine ⟨?_, ?_, ?_⟩ <;> (intro hsa; simp [main, hw] at hsa)

/-- C6 witness: the amended theorem applied to concrete run inputs with
failing delivery, with succeeding delivery on a normal state file, and
with succeeding delivery on a non-object state file. -/
theorem C6_witness :
    ((main failSendRunInput).exit = ExitKind.normal 1 ∧
     (main failSendRunInput).finalState = failSendRunInput.state ∧
     (main failSendRunInput).writes = 0) ∧
    ((main okSendRunInput).exit = ExitKind.normal 0 ∧
     (main okSendRunInput).writes = 1 ∧
     (main okSendRunInput).finalState =
       FileState.valid (some okSendRunInput.today)
         (some (get_daily_count okSendRunInput.today okSendRunInput.state + 1))) ∧
    ((main nonObjectRunInput).exit = ExitKind.crash ∧
     (main nonObjectRunInput).writes = 0 ∧
     (main nonObjectRunInput).finalState = nonObjectRunInput.state) :=
  ⟨(C6_delivery_and_counter failSendRunInput).1 (by decide) rfl,
   (C6_delivery_and_counter okSendRunInput).2.1 (by decide) rfl (by decide)
     (by decide),
   (C6_delivery_and_counter nonObjectRunInput).2.2 (by decide) rfl
     (by decide)⟩

/-! #### Claim C5 -/

theorem mem_foundOf_bounds {p : List Char → Option (List Char × Nat)}
    {text : List Char} {v : ℤ} (h : v ∈ foundOf p text) :
    euro 10 ≤ v ∧ v ≤ euro 50000 := by
  simp only [foundOf, List.mem_filterMap] at h
  obtain ⟨cap, _, hcap⟩ := h
  cases hpr : parseRaw cap with
  | none => rw [hpr] at hcap; simp at hcap
  | some w =>
    rw [hpr] at hcap
    simp only [Option.some_bind] at hcap
    by_cases hb : euro 10 ≤ w ∧ w ≤ euro 50000
    · rw [if_pos hb] at hcap
      cases hcap
      exact hb
    · rw [if_neg hb] at hcap
      simp at hcap

/-- C5: for every input text the extractor returns a strictly ascending
(hence duplicate-free) sequence whose every element lies within the
sanity bound [10, 50000] euros, and "€150 and €150 and €200" yields
[150, 200]. -/
theorem C5_extraction_valid :
    (∀ text, List.Chain' (· < ·) (_extract_prices_from_text text) ∧
      ∀ v ∈ _extract_prices_from_text text, euro 10 ≤ v ∧ v ≤ euro 50000) ∧
    _extract_prices_from_text "€150 and €150 and €200".data =
      [euro 150, euro 200] := by
  constructor
  · intro text
    refine ⟨chain_sortedSet _, ?_⟩
    intro v hv
    simp only [_extract_prices_from_text, mem_sortedSet,
               List.mem_append] at hv
    rcases hv with ((h | h) | h) | h <;> exact mem_foundOf_bounds h
  · decide

/-- C5 witness: the bounds applied to the value 150 extracted from the
claim's example text. -/
theorem C5_witness : euro 10 ≤ euro 150 ∧ euro 150 ≤ euro 50000 :=
  (C5_extraction_valid.1 ("€150 and €150 and €200".data)).2 (euro 150)
    (by decide)

/-! #### Claim C9: choice-function lemmas -/

theorem extract_bounds (text : List Char) :
    ∀ v ∈ _extract_prices_from_text text, euro 10 ≤ v ∧ v ≤ euro 50000 := by
  intro v hv
  simp only [_extract_prices_from_text, mem_sortedSet, List.mem_append] at hv
  rcases hv with ((h | h) | h) | h <;> exact mem_foundOf_bounds h

theorem starChoices_mem {p : Char → Bool} :
    ∀ {s t r : List Char}, (t, r) ∈ starChoices p s →
      s = t ++ r ∧ ∀ c ∈ t, p c = true := by
  intro s
  induction s with
  | nil =>
    intro t r h
    simp [starChoices] at h
    simp [h.1, h.2]
  | cons c rest ih =>
    intro t r h
    by_cases hc : p c
    · rw [show starChoices p (c :: rest) =
            ((starChoices p rest).map (fun t => (c :: t.1, t.2))) ++
              [([], c :: rest)] by simp [starChoices, hc]] at h
      rcases List.mem_append.mp h with h1 | h1
      · obtain ⟨⟨t', r'⟩, hmem, heq⟩ := List.mem_map.mp h1
        obtain ⟨ht, hr⟩ := Prod.mk.injEq .. ▸ heq
        obtain ⟨hs, hall⟩ := ih hmem
        subst ht hr
        refine ⟨by simp [hs], ?_⟩
        intro d hd
        rcases List.mem_cons.mp hd with rfl | hd
        · exact hc
        · exact hall d hd
      · simp at h1
        obtain ⟨ht, hr⟩ := h1
        subst ht hr
        simp
    · rw [show starChoices p (c :: rest) = [([], c :: rest)] by
            simp [starChoices, hc]] at h
      simp at h
      obtain ⟨ht, hr⟩ := h
      subst ht hr
      simp

theorem plusChoices_mem {p : Char → Bool} {s t r : List Char}
    (h : (t, r) ∈ plusChoices p s) :
    s = t ++ r ∧ t ≠ [] ∧ ∀ c ∈ t, p c = true := by
  cases s with
  | nil => simp [plusChoices] at h
  | cons c rest =>
    by_cases hc : p c
    · rw [show plusChoices p (c :: rest) =
            (starChoices p rest).map (fun t => (c :: t.1, t.2)) by
            simp [plusChoices, hc]] at h
      obtain ⟨⟨t', r'⟩, hmem, heq⟩ := List.mem_map.mp h
      obtain ⟨ht, hr⟩ := Prod.mk.injEq .. ▸ heq
      obtain ⟨hs, hall⟩ := starChoices_mem hmem
      subst ht hr
      refine ⟨by simp [hs], by simp, ?_⟩
      intro d hd
      rcases List.mem_cons.mp hd with rfl | hd
      · exact hc
      · exact hall d hd
    · rw [show plusChoices p (c :: rest) = [] by simp [plusChoices, hc]] at h
      simp at h

theorem fracChoices_mem :
    ∀ {s t r : List Char}, (t, r) ∈ fracChoices s → s = t ++ r ∧ FracShape t := by
  intro s t r h
  match s with
  | [] =>
    simp [fracChoices] at h
    obtain ⟨ht, hr⟩ := h
    subst ht hr
    exact ⟨rfl, Or.inl rfl⟩
  | c :: rest =>
    by_cases hc : c = '.'
    · subst hc
      match rest with
      | [] =>
        simp [fracChoices] at h
        obtain ⟨ht, hr⟩ := h
        subst ht hr
        exact ⟨rfl, Or.inl rfl⟩
      | d :: rest2 =>
        by_cases hd : isDigitCh d
        · match rest2 with
          | [] =>
            simp [fracChoices, hd] at h
            rcases h with ⟨ht, hr⟩ | ⟨ht, hr⟩ <;> subst ht hr
            · exact ⟨rfl, Or.inr (Or.inl ⟨d, hd, rfl⟩)⟩
            · exact ⟨rfl, Or.inl rfl⟩
          | e :: rest3 =>
            by_cases he : isDigitCh e
            · simp [fracChoices, hd, he] at h
              rcases h with ⟨ht, hr⟩ | ⟨ht, hr⟩ | ⟨ht, hr⟩ <;> subst ht <;> subst hr
              · exact ⟨rfl, Or.inr (Or.inr ⟨d, e, hd, he, rfl⟩)⟩
              · exact ⟨rfl, Or.inr (Or.inl ⟨d, hd, rfl⟩)⟩
              · exact ⟨rfl, Or.inl rfl⟩
            · simp [fracChoices, hd, he] at h
              rcases h with ⟨ht, hr⟩ | ⟨ht, hr⟩ <;> subst ht <;> subst hr
              · exact ⟨rfl, Or.inr (Or.inl ⟨d, hd, rfl⟩)⟩
              · exact ⟨rfl, Or.inl rfl⟩
        · simp [fracChoices, hd] at h
          obtain ⟨ht, hr⟩ := h
          subst ht hr
          exact ⟨rfl, Or.inl rfl⟩
    · simp [fracChoices, hc] at h
      obtain ⟨ht, hr⟩ := h
      subst ht hr
      exact ⟨rfl, Or.inl rfl⟩

theorem numChoices_mem {s : List Char} {pr : List Char × List Char}
    (h : pr ∈ numChoices s) :
    s = pr.1 ++ pr.2 ∧ ∃ a f, pr.1 = a ++ f ∧ a ≠ [] ∧
      (∀ c ∈ a, isNumCh c = true) ∧ FracShape f := by
  simp only [numChoices, List.mem_flatMap, List.mem_map] at h
  obtain ⟨⟨a, r1⟩, hmem, ⟨f, r2⟩, hfmem, heq⟩ := h
  obtain ⟨hs1, hane, hanum⟩ := plusChoices_mem hmem
  have hfm : (f, r2) ∈ fracChoices r1 := hfmem
  obtain ⟨hs2, hfs⟩ := fracChoices_mem hfm
  subst heq
  constructor
  · show s = (a ++ f) ++ r2
    rw [hs1, hs2, List.append_assoc]
  · exact ⟨a, f, rfl, hane, hanum, hfs⟩

theorem findSome?_head {α β : Type} {l : List α} {a : α} {b : β} {f : α → Option β}
    (hh : l.head? = some a) (hf : f a = some b) : l.findSome? f = some b := by
  cases l with
  | nil => simp at hh
  | cons x xs =>
    simp at hh
    subst hh
    simp [List.findSome?_cons, hf]

theorem starChoices_head {p : Char → Bool} :
    ∀ (xs rest : List Char), (∀ c ∈ xs, p c = true) →
      (rest = [] ∨ ∃ c t, rest = c :: t ∧ p c = false) →
      (starChoices p (xs ++ rest)).head? = some (xs, rest) := by
  intro xs
  induction xs with
  | nil =>
    intro rest _ hrest
    rcases hrest with rfl | ⟨c, t, rfl, hc⟩
    · rfl
    · simp [starChoices, hc]
  | cons x xs' ih =>
    intro rest hxs hrest
    have hx : p x = true := hxs x (by simp)
    have h' := ih rest (fun c hc => hxs c (by simp [hc])) hrest
    rw [show (x :: xs') ++ rest = x :: (xs' ++ rest) from rfl]
    rw [show starChoices p (x :: (xs' ++ rest)) =
        ((starChoices p (xs' ++ rest)).map (fun t => (x :: t.1, t.2))) ++
          [([], x :: (xs' ++ rest))] by simp [starChoices, hx]]
    cases hsc : starChoices p (xs' ++ rest) with
    | nil => rw [hsc] at h'; simp at h'
    | cons a l =>
      rw [hsc] at h'
      simp at h'
      simp [h']

theorem plusChoices_head {p : Char → Bool} (x : Char) (xs rest : List Char)
    (hx : p x = true) (hxs : ∀ c ∈ xs, p c = true)
    (hrest : rest = [] ∨ ∃ c t, rest = c :: t ∧ p c = false) :
    (plusChoices p (x :: xs ++ rest)).head? = some (x :: xs, rest) := by
  rw [show (x :: xs) ++ rest = x :: (xs ++ rest) from rfl]
  rw [show plusChoices p (x :: (xs ++ rest)) =
      (starChoices p (xs ++ rest)).map (fun t => (x :: t.1, t.2)) by
      simp [plusChoices, hx]]
  have h' := starChoices_head xs rest hxs hrest
  cases hsc : starChoices p (xs ++ rest) with
  | nil => rw [hsc] at h'; simp at h'
  | cons a l =>
    rw [hsc] at h'
    simp at h'
    simp [h']

theorem fracChoices_head (f rest : List Char) (hf : FracShape f)
    (hrest : StopAfterNum rest) :
    (fracChoices (f ++ rest)).head? = some (f, rest) := by
  rcases hf with rfl | ⟨d, hd, rfl⟩ | ⟨d, e, hd, he, rfl⟩
  · rcases hrest with rfl | ⟨c, t, rfl, hcn, hcd⟩
    · rfl
    · show (fracChoices (c :: t)).head? = _
      simp [fracChoices, hcd]
  · rcases hrest with rfl | ⟨c, t, rfl, hcn, hcd⟩
    · show (fracChoices ('.' :: d :: [])).head? = _
      simp [fracChoices, hd]
    · show (fracChoices ('.' :: d :: c :: t)).head? = _
      have hcdig : isDigitCh c = false := by
        simp only [isNumCh, Bool.or_eq_false_iff] at hcn
        exact hcn.1
      simp [fracChoices, hd, hcdig]
  · show (fracChoices ('.' :: d :: e :: rest)).head? = _
    simp [fracChoices, hd, he]

theorem numChoices_head (a f rest : List Char)
    (ha : a ≠ []) (han : ∀ c ∈ a, isNumCh c = true)
    (hf : FracShape f) (hrest : StopAfterNum rest) :
    (numChoices (a ++ f ++ rest)).head? = some (a ++ f, rest) := by
  obtain ⟨x, a', rfl⟩ : ∃ x a', a = x :: a' := by
    cases a with
    | nil => exact absurd rfl ha
    | cons x a' => exact ⟨x, a', rfl⟩
  have hstop : f ++ rest = [] ∨ ∃ c t, f ++ rest = c :: t ∧ isNumCh c = false := by
    rcases hf with rfl | ⟨d, hd, rfl⟩ | ⟨d, e, hd, he, rfl⟩
    · rcases hrest with rfl | ⟨c, t, rfl, hcn, _⟩
      · exact Or.inl rfl
      · exact Or.inr ⟨c, t, rfl, hcn⟩
    · exact Or.inr ⟨'.', _, rfl, by decide⟩
    · exact Or.inr ⟨'.', _, rfl, by decide⟩
  have hp := plusChoices_head x a' (f ++ rest) (han x (by simp))
    (fun c hc => han c (by simp [hc])) hstop
  have hfc := fracChoices_head f rest hf hrest
  rw [List.append_assoc]
  unfold numChoices
  cases hpc : plusChoices isNumCh (x :: a' ++ (f ++ rest)) with
  | nil =>
    rw [show x :: a' ++ (f ++ rest) = (x :: a') ++ (f ++ rest) from rfl, hpc] at hp
    simp at hp
  | cons b l =>
    rw [show x :: a' ++ (f ++ rest) = (x :: a') ++ (f ++ rest) from rfl, hpc] at hp
    simp at hp
    subst hp
    rw [List.flatMap_cons]
    cases hfcl : fracChoices (f ++ rest) with
    | nil => rw [hfcl] at hfc; simp at hfc
    | cons fb fl =>
      rw [hfcl] at hfc
      simp at hfc
      subst hfc
      simp

/-! #### Claim C9: matcher lemmas -/

theorem litEuro_none {c : Char} (h : c ≠ '€') (r : List Char) :
    litEuro (c :: r) = none := by
  simp [litEuro, h]

theorem litEUR_none {c : Char} (h1 : c ≠ 'E') (h2 : c ≠ 'e') (t : List Char) :
    litEUR (c :: t) = none := by
  cases t with
  | nil => rfl
  | cons b t2 =>
    cases t2 with
    | nil => rfl
    | cons c2 r => simp [litEUR, h1, h2]

theorem digit_ne {c y : Char} (hc : isDigitCh c = true)
    (hy : isDigitCh y = false) : c ≠ y := by
  intro h
  rw [h, hy] at hc
  exact Bool.false_ne_true hc

theorem isSpaceCh_false_of_digit {c : Char} (h : isDigitCh c = true) :
    isSpaceCh c = false := by
  by_contra hs
  rw [Bool.not_eq_false] at hs
  simp only [isSpaceCh, Bool.or_eq_true, decide_eq_true_eq] at hs
  rcases hs with ((((h1 | h1) | h1) | h1) | h1) | h1 <;> subst h1 <;>
    exact absurd h (by decide)

theorem mkHeadMatcher_none (tok : List Char → Option (List Char))
    (s : List Char) (h : tok s = none) : mkHeadMatcher tok s = none := by
  simp [mkHeadMatcher, h]

theorem mkHeadMatcher_stop (tok : List Char → Option (List Char))
    (s : List Char) (y : Char) (t : List Char)
    (htok : tok s = some (y :: t)) (hsp : isSpaceCh y = false)
    (hnum : isNumCh y = false) :
    mkHeadMatcher tok s = none := by
  unfold mkHeadMatcher
  rw [htok, Option.some_bind]
  rw [show starChoices isSpaceCh (y :: t) = [([], y :: t)] by
      simp [starChoices, hsp]]
  simp only [List.findSome?_cons, List.findSome?_nil]
  rw [show numChoices (y :: t) = [] by
      unfold numChoices
      simp [plusChoices, hnum]]
  rfl

theorem mkTailMatcher_nil (tok : List Char → Option (List Char)) :
    mkTailMatcher tok [] = none := rfl

theorem mkTailMatcher_none_head (tok : List Char → Option (List Char))
    (c : Char) (t : List Char) (h : isNumCh c = false) :
    mkTailMatcher tok (c :: t) = none := by
  unfold mkTailMatcher numChoices
  rw [show plusChoices isNumCh (c :: t) = [] by simp [plusChoices, h]]
  rfl

theorem mkHeadMatcher_item (tok : List Char → Option (List Char))
    (s sp n rest : List Char)
    (htok : tok s = some (sp ++ (n ++ rest)))
    (hsp : ∀ c ∈ sp, isSpaceCh c = true)
    (hn : Numeral n)
    (hrest : StopAfterNum rest) :
    mkHeadMatcher tok s = some (n, s.length - rest.length) := by
  obtain ⟨a, f, rfl, ha, hadig, hf⟩ := hn
  obtain ⟨x, a', rfl⟩ : ∃ x a', a = x :: a' := by
    cases a with
    | nil => exact absurd rfl ha
    | cons x a' => exact ⟨x, a', rfl⟩
  have hx : isDigitCh x = true := hadig x (by simp)
  unfold mkHeadMatcher
  rw [htok]
  rw [Option.some_bind]
  have hstar := starChoices_head (p := isSpaceCh) sp ((x :: a' ++ f) ++ rest) hsp
    (Or.inr ⟨x, a' ++ f ++ rest, by simp, isSpaceCh_false_of_digit hx⟩)
  refine findSome?_head hstar ?_
  have hnum := numChoices_head (x :: a') f rest (by simp)
    (fun c hc => by
      rcases List.mem_cons.mp hc with rfl | hc
      · simp [isNumCh, isDigitCh] at hx ⊢
        simp [hx]
      · have := hadig c (by simp [hc])
        simp [isNumCh, isDigitCh] at this ⊢
        simp [this])
    hf hrest
  exact findSome?_head hnum rfl

theorem mkTailMatcher_item (tok : List Char → Option (List Char))
    (n sp tk rest : List Char)
    (hn : Numeral n)
    (hsp : ∀ c ∈ sp, isSpaceCh c = true)
    (htk : tk = [] ∨ ∃ c t, tk = c :: t ∧ isSpaceCh c = false)
    (hstop : StopAfterNum (sp ++ tk))
    (htok : tok tk = some rest) :
    mkTailMatcher tok (n ++ (sp ++ tk)) =
      some (n, (n ++ (sp ++ tk)).length - rest.length) := by
  obtain ⟨a, f, rfl, ha, hadig, hf⟩ := hn
  have han : ∀ c ∈ a, isNumCh c = true := by
    intro c hc
    have := hadig c hc
    simp [isNumCh, isDigitCh] at this ⊢
    simp [this]
  unfold mkTailMatcher
  have hnum := numChoices_head a f (sp ++ tk) ha han hf hstop
  rw [show (a ++ f) ++ (sp ++ tk) = a ++ f ++ (sp ++ tk) from rfl] at hnum ⊢
  refine findSome?_head hnum ?_
  have hstar := starChoices_head (p := isSpaceCh) sp tk hsp htk
  refine findSome?_head hstar ?_
  rw [htok]
  rfl

theorem isNumCh_of_digit {c : Char} (h : isDigitCh c = true) :
    isNumCh c = true := by
  simp [isNumCh, isDigitCh] at h ⊢
  simp [h]

/-- No capture of the number group can contain the separator char `y`. -/
theorem sep_not_in_capture {y : Char} {cap : List Char}
    (hy1 : isNumCh y = false) (hy2 : y ≠ '.')
    (hshape : ∃ a f, cap = a ++ f ∧ a ≠ [] ∧
      (∀ c ∈ a, isNumCh c = true) ∧ FracShape f) :
    y ∉ cap := by
  obtain ⟨a, f, rfl, _, han, hf⟩ := hshape
  intro hmem
  rcases List.mem_append.mp hmem with h1 | h1
  · rw [han y h1] at hy1
    exact absurd hy1 (by decide)
  · rcases hf with rfl | ⟨d, hd, rfl⟩ | ⟨d, e, hd, he, rfl⟩
    · simp at h1
    · simp at h1
      rcases h1 with rfl | rfl
      · exact hy2 rfl
      · rw [isNumCh_of_digit hd] at hy1
        exact absurd hy1 (by decide)
    · simp at h1
      rcases h1 with rfl | rfl | rfl
      · exact hy2 rfl
      · rw [isNumCh_of_digit hd] at hy1
        exact absurd hy1 (by decide)
      · rw [isNumCh_of_digit he] at hy1
        exact absurd hy1 (by decide)

/-- Any number-group choice taken from `xs ++ y :: t` with `y` outside
the capture alphabet leaves a remainder of the form `z ++ y :: t` with
`z` a suffix of `xs`. -/
theorem capture_remainder (y : Char) (xs t : List Char) {cap r : List Char}
    (hsplit : xs ++ y :: t = cap ++ r) (hnotin : y ∉ cap) :
    ∃ z, r = z ++ y :: t ∧ (z = [] ∨ ∃ c z', z = c :: z' ∧ c ∈ xs) := by
  rcases List.append_eq_append_iff.mp hsplit with ⟨w, hw1, hw2⟩ | ⟨w, hw1, hw2⟩
  · -- cap = xs ++ w, y :: t = w ++ r
    cases w with
    | nil =>
      refine ⟨[], by simpa using hw2.symm, Or.inl rfl⟩
    | cons c w' =>
      have hcy : c = y := by
        have h := congrArg List.head? hw2
        simp at h
        exact h.symm
      subst hcy
      exact absurd (hw1 ▸ List.mem_append_right xs (by simp)) hnotin
  · -- xs = cap ++ w, r = w ++ y :: t
    cases w with
    | nil => exact ⟨[], by simpa using hw2, Or.inl rfl⟩
    | cons c w' =>
      refine ⟨c :: w', hw2, Or.inr ⟨c, w', rfl, ?_⟩⟩
      rw [hw1]
      exact List.mem_append_right cap (by simp)

theorem mkTailMatcher_none_sep (tok : List Char → Option (List Char))
    (y : Char) (xs t : List Char)
    (hxs : DigDot xs)
    (hy1 : isNumCh y = false) (hy2 : y ≠ '.') (hy3 : isSpaceCh y = false)
    (htok : ∀ (c : Char) (r : List Char),
        isDigitCh c = true ∨ c = '.' ∨ c = y → tok (c :: r) = none) :
    mkTailMatcher tok (xs ++ y :: t) = none := by
  unfold mkTailMatcher
  rw [List.findSome?_eq_none_iff]
  intro pair hmem
  obtain ⟨hsplit, hshape⟩ := numChoices_mem hmem
  obtain ⟨z, hz1, hz2⟩ := capture_remainder y xs t hsplit
    (sep_not_in_capture hy1 hy2 hshape)
  have hr : ∃ c r', pair.2 = c :: r' ∧ (isDigitCh c = true ∨ c = '.' ∨ c = y) := by
    rcases hz2 with rfl | ⟨c, z', rfl, hc⟩
    · exact ⟨y, t, by simpa using hz1, Or.inr (Or.inr rfl)⟩
    · refine ⟨c, z' ++ y :: t, by simpa using hz1, ?_⟩
      rcases hxs c hc with h1 | h1
      · exact Or.inl h1
      · exact Or.inr (Or.inl h1)
  obtain ⟨c, r', hr2, hc⟩ := hr
  rw [hr2]
  have hcs : isSpaceCh c = false := by
    rcases hc with h1 | h1 | h1
    · exact isSpaceCh_false_of_digit h1
    · subst h1; decide
    · subst h1; exact hy3
  rw [show starChoices isSpaceCh (c :: r') = [([], c :: r')] by
      simp [starChoices, hcs]]
  simp only [List.findSome?_cons, List.findSome?_nil]
  rw [htok c r' hc]
  rfl

theorem mkTailMatcher_none_sep_space (tok : List Char → Option (List Char))
    (xs w : List Char)
    (hxs : DigDot xs)
    (hwhead : ∃ c t', w = c :: t' ∧ isSpaceCh c = false)
    (htokdig : ∀ (c : Char) (r : List Char),
        isDigitCh c = true ∨ c = '.' → tok (c :: r) = none)
    (htokw : tok w = none) (htoksw : tok (' ' :: w) = none) :
    mkTailMatcher tok (xs ++ ' ' :: w) = none := by
  unfold mkTailMatcher
  rw [List.findSome?_eq_none_iff]
  intro pair hmem
  obtain ⟨hsplit, hshape⟩ := numChoices_mem hmem
  obtain ⟨z, hz1, hz2⟩ := capture_remainder ' ' xs w hsplit
    (sep_not_in_capture (by decide) (by decide) hshape)
  rcases hz2 with rfl | ⟨c, z', rfl, hc⟩
  · -- pair.2 = ' ' :: w
    rw [show pair.2 = ' ' :: w by simpa using hz1]
    obtain ⟨cw, tw, rfl, hcw⟩ := hwhead
    rw [show starChoices isSpaceCh (' ' :: cw :: tw) =
        [([' '], cw :: tw), ([], ' ' :: cw :: tw)] by
        simp [starChoices, hcw, (by decide : isSpaceCh ' ' = true)]]
    simp only [List.findSome?_cons, List.findSome?_nil]
    rw [htokw, htoksw]
    rfl
  · -- pair.2 = c :: (z' ++ ' ' :: w), c a digit or '.'
    rw [show pair.2 = c :: (z' ++ ' ' :: w) by simpa using hz1]
    have hcs : isSpaceCh c = false := by
      rcases hxs c hc with h1 | h1
      · exact isSpaceCh_false_of_digit h1
      · subst h1; decide
    rw [show starChoices isSpaceCh (c :: (z' ++ ' ' :: w)) =
        [([], c :: (z' ++ ' ' :: w))] by simp [starChoices, hcs]]
    simp only [List.findSome?_cons, List.findSome?_nil]
    rw [htokdig c _ (hxs c hc)]
    rfl

/-! #### Claim C9: numeral rendering and parsing -/

theorem charVal_toDig {d : ℕ} (h : d < 10) : charVal (toDig d) = d := by
  interval_cases d <;> decide

theorem isDigitCh_toDig {d : ℕ} (h : d < 10) : isDigitCh (toDig d) = true := by
  interval_cases d <;> decide

theorem natToDigCh_digits {n : ℕ} : ∀ c ∈ natToDigCh n, isDigitCh c = true := by
  intro c hc
  unfold natToDigCh at hc
  rw [List.mem_reverse] at hc
  obtain ⟨d, hd, rfl⟩ := List.mem_map.mp hc
  exact isDigitCh_toDig (Nat.digits_lt_base (by norm_num) hd)

theorem natToDigCh_ne_nil {n : ℕ} (h : n ≠ 0) : natToDigCh n ≠ [] := by
  unfold natToDigCh
  simp [Nat.digits_ne_nil_iff_ne_zero.mpr h]

theorem natValN_append (xs : List ℕ) (d : ℕ) :
    natValN (xs ++ [d]) = 10 * natValN xs + d := by
  unfold natValN
  rw [List.foldl_append]
  rfl

theorem natValN_reverse (l : List ℕ) : natValN l.reverse = Nat.ofDigits 10 l := by
  induction l with
  | nil => rfl
  | cons d l ih =>
    rw [List.reverse_cons, natValN_append, ih, Nat.ofDigits_cons]
    omega

theorem digitsToNat_natToDigCh (n : ℕ) : digitsToNat (natToDigCh n) = n := by
  unfold digitsToNat natToDigCh
  rw [← List.map_reverse, List.foldl_map]
  have hcongr : ∀ (ds : List ℕ) (a : ℕ), (∀ d ∈ ds, d < 10) →
      List.foldl (fun x d => 10 * x + charVal (toDig d)) a ds =
      List.foldl (fun x d => 10 * x + d) a ds := by
    intro ds
    induction ds with
    | nil => intro a _; rfl
    | cons d ds ih =>
      intro a h
      simp only [List.foldl_cons]
      rw [charVal_toDig (h d (by simp))]
      exact ih _ (fun x hx => h x (by simp [hx]))
  rw [hcongr _ _ (fun d hd =>
    Nat.digits_lt_base (by norm_num) (List.mem_reverse.mp hd))]
  show natValN (Nat.digits 10 n).reverse = n
  rw [natValN_reverse, Nat.ofDigits_digits]

theorem digitsToNat_one (c : Char) : digitsToNat [c] = charVal c := by
  unfold digitsToNat
  simp

theorem digitsToNat_two (c d : Char) :
    digitsToNat [c, d] = 10 * charVal c + charVal d := by
  unfold digitsToNat
  simp

theorem fracRender_shape {r : ℕ} (h : r < 100) : FracShape (fracRender r) := by
  unfold fracRender
  by_cases h0 : r = 0
  · simp [h0]
    exact Or.inl rfl
  · by_cases h10 : r % 10 = 0
    · simp [h0, h10]
      exact Or.inr (Or.inl ⟨toDig (r / 10), isDigitCh_toDig (by omega), rfl⟩)
    · simp [h0, h10]
      refine Or.inr (Or.inr ⟨toDig (r / 10), toDig (r % 10),
        isDigitCh_toDig (by omega), isDigitCh_toDig (by omega), rfl⟩)

theorem numeralOf_Numeral {v : ℤ} (h : euro 10 ≤ v) : Numeral (numeralOf v) := by
  refine ⟨natToDigCh (v.toNat / 100), fracRender (v.toNat % 100), rfl, ?_,
    natToDigCh_digits, fracRender_shape (Nat.mod_lt _ (by norm_num))⟩
  apply natToDigCh_ne_nil
  have h1000 : (1000 : ℤ) ≤ v := by
    simpa [euro] using h
  have hk : 1000 ≤ v.toNat := by omega
  intro hz
  have := Nat.div_le_div_right (c := 100) hk
  rw [hz] at this
  norm_num at this

theorem numeralOf_chars {v : ℤ} : DigDot (numeralOf v) := by
  intro c hc
  unfold numeralOf at hc
  rcases List.mem_append.mp hc with h1 | h1
  · exact Or.inl (natToDigCh_digits c h1)
  · unfold fracRender at h1
    by_cases h0 : v.toNat % 100 = 0
    · simp [h0] at h1
    · by_cases h10 : v.toNat % 100 % 10 = 0
      · simp [h0, h10] at h1
        rcases h1 with rfl | rfl
        · exact Or.inr rfl
        · exact Or.inl (isDigitCh_toDig (by omega))
      · simp [h0, h10] at h1
        rcases h1 with rfl | rfl | rfl
        · exact Or.inr rfl
        · exact Or.inl (isDigitCh_toDig (by omega))
        · exact Or.inl (isDigitCh_toDig (by omega))

theorem takeWhile_append_all {p : Char → Bool} :
    ∀ (xs rest : List Char), (∀ c ∈ xs, p c = true) →
      (rest = [] ∨ ∃ c t, rest = c :: t ∧ p c = false) →
      (xs ++ rest).takeWhile p = xs ∧ (xs ++ rest).dropWhile p = rest := by
  intro xs
  induction xs with
  | nil =>
    intro rest _ hrest
    rcases hrest with rfl | ⟨c, t, rfl, hc⟩
    · exact ⟨rfl, rfl⟩
    · simp [List.takeWhile, List.dropWhile, hc]
  | cons x xs' ih =>
    intro rest hxs hrest
    have hx : p x = true := hxs x (by simp)
    have h' := ih rest (fun c hc => hxs c (by simp [hc])) hrest
    rw [List.cons_append]
    simp [List.takeWhile, List.dropWhile, hx, h'.1, h'.2]

theorem parseRaw_numeralOf {v : ℤ} (hlo : euro 10 ≤ v) :
    parseRaw (numeralOf v) = some v := by
  have h1000 : (1000 : ℤ) ≤ v := by simpa [euro] using hlo
  have hk : 1000 ≤ v.toNat := by omega
  have hkd : 10 ≤ v.toNat / 100 := Nat.le_div_iff_mul_le (by norm_num) |>.mpr (by omega)
  have hr : v.toNat % 100 < 100 := Nat.mod_lt _ (by norm_num)
  have hnc : ∀ c ∈ numeralOf v, (c != ',') = true := by
    intro c hc
    rcases numeralOf_chars c hc with h1 | h1
    · simp [bne_iff_ne]
      exact digit_ne h1 (by decide)
    · subst h1
      decide
  unfold parseRaw
  rw [List.filter_eq_self.mpr hnc]
  have hne : (numeralOf v).isEmpty = false := by
    unfold numeralOf
    cases hd : natToDigCh (v.toNat / 100) with
    | nil => exact absurd hd (natToDigCh_ne_nil (by omega))
    | cons a l => simp
  simp only [hne, Bool.false_eq_true, if_false]
  have hsplit := takeWhile_append_all (p := (· != '.'))
    (natToDigCh (v.toNat / 100)) (fracRender (v.toNat % 100))
    (fun c hc => by
      simp [bne_iff_ne]
      exact digit_ne (natToDigCh_digits c hc) (by decide))
    (by
      unfold fracRender
      by_cases h0 : v.toNat % 100 = 0
      · simp [h0]
      · by_cases h10 : v.toNat % 100 % 10 = 0
        · simp [h0, h10]
        · simp [h0, h10])
  show some _ = some v
  unfold numeralOf
  rw [hsplit.1, hsplit.2]
  rw [digitsToNat_natToDigCh]
  have hv : ((v.toNat : ℤ)) = v := Int.toNat_of_nonneg (by omega)
  unfold fracRender
  by_cases h0 : v.toNat % 100 = 0
  · simp only [h0, if_pos rfl]
    show some ((100 * (v.toNat / 100) + digitsToNat [] * 10 ^ (0 : ℕ) : ℕ) : ℤ) = some v
    have : digitsToNat [] = 0 := rfl
    rw [this]
    congr 1
    rw [← hv]
    congr 1
    omega
  · by_cases h10 : v.toNat % 100 % 10 = 0
    · simp only [h0, h10, if_neg, if_pos rfl, ite_false]
      show some ((100 * (v.toNat / 100) +
        digitsToNat [toDig (v.toNat % 100 / 10)] * 10 ^ (1 : ℕ) : ℕ) : ℤ) = some v
      rw [digitsToNat_one, charVal_toDig (by omega)]
      congr 1
      rw [← hv]
      congr 1
      omega
    · simp only [h0, h10, if_neg, ite_false]
      show some ((100 * (v.toNat / 100) +
        digitsToNat [toDig (v.toNat % 100 / 10), toDig (v.toNat % 100 % 10)] *
          10 ^ (0 : ℕ) : ℕ) : ℤ) = some v
      rw [digitsToNat_two, charVal_toDig (by omega), charVal_toDig (by omega)]
      congr 1
      rw [← hv]
      congr 1
      omega

/-! #### Claim C9: suffix analysis of rendered texts -/

theorem suffix_append_cases {α : Type} {u : List α} :
    ∀ {a b : List α}, u <:+ a ++ b →
      u <:+ b ∨ ∃ a', a' <:+ a ∧ a' ≠ [] ∧ u = a' ++ b := by
  intro a
  induction a with
  | nil => intro b h; exact Or.inl (by simpa using h)
  | cons x a' ih =>
    intro b h
    rw [List.cons_append] at h
    rcases List.suffix_cons_iff.mp h with h1 | h1
    · right
      exact ⟨x :: a', List.suffix_refl _, by simp, by simpa using h1⟩
    · rcases ih h1 with h2 | ⟨a'', h3, h4, h5⟩
      · exact Or.inl h2
      · right
        refine ⟨a'', ?_, h4, h5⟩
        obtain ⟨p, hp⟩ := h3
        exact ⟨x :: p, by simp [hp]⟩

theorem suffix_append_one {α : Type} {u xs : List α} {y : α}
    (h : u <:+ xs ++ [y]) (hne : u ≠ []) :
    ∃ b, b <:+ xs ∧ u = b ++ [y] := by
  rcases suffix_append_cases h with h1 | ⟨a', h2, _, h4⟩
  · rcases List.suffix_cons_iff.mp h1 with h2 | h2
    · exact ⟨[], List.nil_suffix, by simpa using h2⟩
    · rw [List.suffix_nil] at h2
      exact absurd h2 hne
  · exact ⟨a', h2, h4⟩

theorem extract_chars {f : Form} {vs : List ℤ} :
    ∀ c ∈ extract_as_text f vs,
      isDigitCh c = true ∨ c = '.' ∨ c = ';' ∨
        (c = '€' ∧ (f = Form.f1 ∨ f = Form.f3)) ∨
        ((c = 'E' ∨ c = 'U' ∨ c = 'R' ∨ c = ' ') ∧
          (f = Form.f2 ∨ f = Form.f4)) := by
  intro c hc
  simp only [extract_as_text, List.mem_flatMap] at hc
  obtain ⟨v, _, hc⟩ := hc
  rcases List.mem_append.mp hc with h1 | h1
  · cases f <;> simp only [renderItem] at h1
    · rcases List.mem_cons.mp h1 with rfl | h1
      · exact Or.inr (Or.inr (Or.inr (Or.inl ⟨rfl, Or.inl rfl⟩)))
      · rcases numeralOf_chars c h1 with h2 | h2
        · exact Or.inl h2
        · exact Or.inr (Or.inl h2)
    · rcases List.mem_cons.mp h1 with rfl | h1
      · exact Or.inr (Or.inr (Or.inr (Or.inr ⟨Or.inl rfl, Or.inl rfl⟩)))
      rcases List.mem_cons.mp h1 with rfl | h1
      · exact Or.inr (Or.inr (Or.inr (Or.inr ⟨Or.inr (Or.inl rfl), Or.inl rfl⟩)))
      rcases List.mem_cons.mp h1 with rfl | h1
      · exact Or.inr (Or.inr (Or.inr (Or.inr
          ⟨Or.inr (Or.inr (Or.inl rfl)), Or.inl rfl⟩)))
      rcases List.mem_cons.mp h1 with rfl | h1
      · exact Or.inr (Or.inr (Or.inr (Or.inr
          ⟨Or.inr (Or.inr (Or.inr rfl)), Or.inl rfl⟩)))
      · rcases numeralOf_chars c h1 with h2 | h2
        · exact Or.inl h2
        · exact Or.inr (Or.inl h2)
    · rcases List.mem_append.mp h1 with h2 | h2
      · rcases numeralOf_chars c h2 with h3 | h3
        · exact Or.inl h3
        · exact Or.inr (Or.inl h3)
      · simp at h2
        subst h2
        exact Or.inr (Or.inr (Or.inr (Or.inl ⟨rfl, Or.inr rfl⟩)))
    · rcases List.mem_append.mp h1 with h2 | h2
      · rcases numeralOf_chars c h2 with h3 | h3
        · exact Or.inl h3
        · exact Or.inr (Or.inl h3)
      · simp at h2
        rcases h2 with rfl | rfl | rfl | rfl
        · exact Or.inr (Or.inr (Or.inr (Or.inr
            ⟨Or.inr (Or.inr (Or.inr rfl)), Or.inr rfl⟩)))
        · exact Or.inr (Or.inr (Or.inr (Or.inr ⟨Or.inl rfl, Or.inr rfl⟩)))
        · exact Or.inr (Or.inr (Or.inr (Or.inr
            ⟨Or.inr (Or.inl rfl), Or.inr rfl⟩)))
        · exact Or.inr (Or.inr (Or.inr (Or.inr
            ⟨Or.inr (Or.inr (Or.inl rfl)), Or.inr rfl⟩)))
  · simp at h1
    subst h1
    exact Or.inr (Or.inr (Or.inl rfl))

theorem scanAll_eq_nil {p : List Char → Option (List Char × Nat)} :
    ∀ {s : List Char}, (∀ u, u <:+ s → p u = none) → scanAll p s = [] := by
  intro s
  induction s with
  | nil => intro _; rfl
  | cons c rest ih =>
    intro h
    rw [scanAll_cons, h (c :: rest) (List.suffix_refl _)]
    exact ih (fun u hu => h u (hu.trans (List.suffix_cons c rest)))

theorem suffix_classes_f1 (vs : List ℤ) :
    ∀ u, u <:+ extract_as_text Form.f1 vs →
      u = [] ∨ (∃ b t, u = b ++ ';' :: t ∧ DigDot b) ∨
      (∃ n t, u = '€' :: (n ++ ';' :: t)) := by
  induction vs with
  | nil =>
    intro u hu
    exact Or.inl (List.suffix_nil.mp hu)
  | cons v vs ih =>
    intro u hu
    rw [show extract_as_text Form.f1 (v :: vs) =
        ('€' :: (numeralOf v ++ [';'])) ++ extract_as_text Form.f1 vs by
        simp [extract_as_text, renderItem]] at hu
    rcases suffix_append_cases hu with h1 | ⟨a', h2, h3, h4⟩
    · exact ih u h1
    · rcases List.suffix_cons_iff.mp h2 with h5 | h5
      · subst h5
        right; right
        refine ⟨numeralOf v, extract_as_text Form.f1 vs, ?_⟩
        rw [h4]
        simp
      · obtain ⟨b, hb1, hb2⟩ := suffix_append_one h5 h3
        right; left
        refine ⟨b, extract_as_text Form.f1 vs, ?_,
          fun c hc => numeralOf_chars c (hb1.subset hc)⟩
        rw [h4, hb2]
        simp

theorem suffix_classes_f2 (vs : List ℤ) :
    ∀ u, u <:+ extract_as_text Form.f2 vs →
      u = [] ∨ (∃ b t, u = b ++ ';' :: t ∧ DigDot b) ∨
      (∃ c t, u = c :: t ∧ (c = 'E' ∨ c = 'U' ∨ c = 'R' ∨ c = ' ')) := by
  induction vs with
  | nil =>
    intro u hu
    exact Or.inl (List.suffix_nil.mp hu)
  | cons v vs ih =>
    intro u hu
    rw [show extract_as_text Form.f2 (v :: vs) =
        ('E' :: 'U' :: 'R' :: ' ' :: (numeralOf v ++ [';'])) ++
          extract_as_text Form.f2 vs by
        simp [extract_as_text, renderItem]] at hu
    rcases suffix_append_cases hu with h1 | ⟨a', h2, h3, h4⟩
    · exact ih u h1
    · rcases List.suffix_cons_iff.mp h2 with h5 | h5
      · subst h5
        exact Or.inr (Or.inr ⟨'E',
          'U' :: 'R' :: ' ' :: (numeralOf v ++ ';' :: extract_as_text Form.f2 vs),
          by rw [h4]; simp, Or.inl rfl⟩)
      rcases List.suffix_cons_iff.mp h5 with h6 | h6
      · subst h6
        exact Or.inr (Or.inr ⟨'U',
          'R' :: ' ' :: (numeralOf v ++ ';' :: extract_as_text Form.f2 vs),
          by rw [h4]; simp, Or.inr (Or.inl rfl)⟩)
      rcases List.suffix_cons_iff.mp h6 with h7 | h7
      · subst h7
        exact Or.inr (Or.inr ⟨'R',
          ' ' :: (numeralOf v ++ ';' :: extract_as_text Form.f2 vs),
          by rw [h4]; simp, Or.inr (Or.inr (Or.inl rfl))⟩)
      rcases List.suffix_cons_iff.mp h7 with h8 | h8
      · subst h8
        exact Or.inr (Or.inr ⟨' ',
          numeralOf v ++ ';' :: extract_as_text Form.f2 vs,
          by rw [h4]; simp, Or.inr (Or.inr (Or.inr rfl))⟩)
      · obtain ⟨b, hb1, hb2⟩ := suffix_append_one h8 h3
        right; left
        refine ⟨b, extract_as_text Form.f2 vs, ?_,
          fun c hc => numeralOf_chars c (hb1.subset hc)⟩
        rw [h4, hb2]
        simp

theorem suffix_classes_f3 (vs : List ℤ) :
    ∀ u, u <:+ extract_as_text Form.f3 vs →
      u = [] ∨ (∃ b t, u = b ++ '€' :: ';' :: t ∧ DigDot b) ∨
      (∃ t, u = ';' :: t) := by
  induction vs with
  | nil =>
    intro u hu
    exact Or.inl (List.suffix_nil.mp hu)
  | cons v vs ih =>
    intro u hu
    rw [show extract_as_text Form.f3 (v :: vs) =
        ((numeralOf v ++ ['€']) ++ [';']) ++ extract_as_text Form.f3 vs by
        simp [extract_as_text, renderItem]] at hu
    rcases suffix_append_cases hu with h1 | ⟨a', h2, h3, h4⟩
    · exact ih u h1
    · obtain ⟨b', hb1, hb2⟩ := suffix_append_one h2 h3
      cases hb' : b' with
      | nil =>
        subst hb'
        right; right
        exact ⟨extract_as_text Form.f3 vs, by rw [h4, hb2]; simp⟩
      | cons c0 b'' =>
        have hbne : b' ≠ [] := by rw [hb']; simp
        obtain ⟨b, hb3, hb4⟩ := suffix_append_one hb1 hbne
        right; left
        refine ⟨b, extract_as_text Form.f3 vs, ?_,
          fun c hc => numeralOf_chars c (hb3.subset hc)⟩
        rw [h4, hb2, hb4]
        simp

theorem suffix_classes_f4 (vs : List ℤ) :
    ∀ u, u <:+ extract_as_text Form.f4 vs →
      u = [] ∨
      (∃ b t, u = b ++ ' ' :: 'E' :: 'U' :: 'R' :: ';' :: t ∧ DigDot b) ∨
      (∃ t, u = 'E' :: 'U' :: 'R' :: ';' :: t) ∨
      (∃ t, u = 'U' :: 'R' :: ';' :: t) ∨
      (∃ t, u = 'R' :: ';' :: t) ∨
      (∃ t, u = ';' :: t) := by
  induction vs with
  | nil =>
    intro u hu
    exact Or.inl (List.suffix_nil.mp hu)
  | cons v vs ih =>
    intro u hu
    rw [show extract_as_text Form.f4 (v :: vs) =
        ((numeralOf v ++ [' ', 'E', 'U', 'R']) ++ [';']) ++
          extract_as_text Form.f4 vs by
        simp [extract_as_text, renderItem]] at hu
    rcases suffix_append_cases hu with h1 | ⟨a', h2, h3, h4⟩
    · exact ih u h1
    · obtain ⟨b', hb1, hb2⟩ := suffix_append_one h2 h3
      rcases suffix_append_cases hb1 with h5 | ⟨b'', h6, h7, h8⟩
      · -- b' is a suffix of [' ','E','U','R']
        rcases List.suffix_cons_iff.mp h5 with h6 | h6
        · subst h6
          right; left
          refine ⟨[], extract_as_text Form.f4 vs, ?_, by intro c hc; simp at hc⟩
          rw [h4, hb2]
          simp
        rcases List.suffix_cons_iff.mp h6 with h7 | h7
        · subst h7
          exact Or.inr (Or.inr (Or.inl ⟨extract_as_text Form.f4 vs,
            by rw [h4, hb2]; simp⟩))
        rcases List.suffix_cons_iff.mp h7 with h8 | h8
        · subst h8
          exact Or.inr (Or.inr (Or.inr (Or.inl ⟨extract_as_text Form.f4 vs,
            by rw [h4, hb2]; simp⟩)))
        rcases List.suffix_cons_iff.mp h8 with h9 | h9
        · subst h9
          exact Or.inr (Or.inr (Or.inr (Or.inr (Or.inl
            ⟨extract_as_text Form.f4 vs, by rw [h4, hb2]; simp⟩))))
        · rw [List.suffix_nil] at h9
          subst h9
          exact Or.inr (Or.inr (Or.inr (Or.inr (Or.inr
            ⟨extract_as_text Form.f4 vs, by rw [h4, hb2]; simp⟩))))
      · right; left
        refine ⟨b'', extract_as_text Form.f4 vs, ?_,
          fun c hc => numeralOf_chars c (h6.subset hc)⟩
        rw [h4, hb2, h8]
        simp

/-! #### Claim C9: the inactive patterns find nothing -/

theorem litEuro_none_of {c : Char}
    (h : isDigitCh c = true ∨ c = '.' ∨ c = ';' ∨ c = 'E' ∨ c = 'U' ∨
      c = 'R' ∨ c = ' ') (r : List Char) : litEuro (c :: r) = none := by
  apply litEuro_none
  rcases h with h | h | h | h | h | h | h
  · exact digit_ne h (by decide)
  all_goals (subst h; decide)

theorem litEUR_none_of {c : Char}
    (h : isDigitCh c = true ∨ c = '.' ∨ c = ';' ∨ c = '€' ∨ c = 'U' ∨
      c = 'R' ∨ c = ' ') (t : List Char) : litEUR (c :: t) = none := by
  rcases h with h | h | h | h | h | h | h
  · exact litEUR_none (digit_ne h (by decide)) (digit_ne h (by decide)) t
  all_goals (subst h; exact litEUR_none (by decide) (by decide) t)

theorem noP2_f1 (vs : List ℤ) :
    ∀ u, u <:+ extract_as_text Form.f1 vs → matchP2 u = none := by
  intro u hu
  show mkHeadMatcher litEUR u = none
  cases u with
  | nil => exact mkHeadMatcher_none _ _ rfl
  | cons c t =>
    apply mkHeadMatcher_none
    apply litEUR_none_of
    rcases extract_chars c (hu.subset (by simp)) with h | h | h | ⟨h, _⟩ | ⟨_, hf⟩
    · exact Or.inl h
    · exact Or.inr (Or.inl h)
    · exact Or.inr (Or.inr (Or.inl h))
    · exact Or.inr (Or.inr (Or.inr (Or.inl h)))
    · rcases hf with hf | hf <;> exact absurd hf (by decide)

theorem noP2_f3 (vs : List ℤ) :
    ∀ u, u <:+ extract_as_text Form.f3 vs → matchP2 u = none := by
  intro u hu
  show mkHeadMatcher litEUR u = none
  cases u with
  | nil => exact mkHeadMatcher_none _ _ rfl
  | cons c t =>
    apply mkHeadMatcher_none
    apply litEUR_none_of
    rcases extract_chars c (hu.subset (by simp)) with h | h | h | ⟨h, _⟩ | ⟨_, hf⟩
    · exact Or.inl h
    · exact Or.inr (Or.inl h)
    · exact Or.inr (Or.inr (Or.inl h))
    · exact Or.inr (Or.inr (Or.inr (Or.inl h)))
    · rcases hf with hf | hf <;> exact absurd hf (by decide)

theorem noP1_f2 (vs : List ℤ) :
    ∀ u, u <:+ extract_as_text Form.f2 vs → matchP1 u = none := by
  intro u hu
  show mkHeadMatcher litEuro u = none
  cases u with
  | nil => exact mkHeadMatcher_none _ _ rfl
  | cons c t =>
    apply mkHeadMatcher_none
    apply litEuro_none_of
    rcases extract_chars c (hu.subset (by simp)) with h | h | h | ⟨_, hf⟩ | ⟨h, _⟩
    · exact Or.inl h
    · exact Or.inr (Or.inl h)
    · exact Or.inr (Or.inr (Or.inl h))
    · rcases hf with hf | hf <;> exact absurd hf (by decide)
    · rcases h with h | h | h | h
      · exact Or.inr (Or.inr (Or.inr (Or.inl h)))
      · exact Or.inr (Or.inr (Or.inr (Or.inr (Or.inl h))))
      · exact Or.inr (Or.inr (Or.inr (Or.inr (Or.inr (Or.inl h)))))
      · exact Or.inr (Or.inr (Or.inr (Or.inr (Or.inr (Or.inr h)))))

theorem noP1_f4 (vs : List ℤ) :
    ∀ u, u <:+ extract_as_text Form.f4 vs → matchP1 u = none := by
  intro u hu
  show mkHeadMatcher litEuro u = none
  cases u with
  | nil => exact mkHeadMatcher_none _ _ rfl
  | cons c t =>
    apply mkHeadMatcher_none
    apply litEuro_none_of
    rcases extract_chars c (hu.subset (by simp)) with h | h | h | ⟨_, hf⟩ | ⟨h, _⟩
    · exact Or.inl h
    · exact Or.inr (Or.inl h)
    · exact Or.inr (Or.inr (Or.inl h))
    · rcases hf with hf | hf <;> exact absurd hf (by decide)
    · rcases h with h | h | h | h
      · exact Or.inr (Or.inr (Or.inr (Or.inl h)))
      · exact Or.inr (Or.inr (Or.inr (Or.inr (Or.inl h))))
      · exact Or.inr (Or.inr (Or.inr (Or.inr (Or.inr (Or.inl h)))))
      · exact Or.inr (Or.inr (Or.inr (Or.inr (Or.inr (Or.inr h)))))

theorem noP3_f1 (vs : List ℤ) :
    ∀ u, u <:+ extract_as_text Form.f1 vs → matchP3 u = none := by
  intro u hu
  show mkTailMatcher litEuro u = none
  rcases suffix_classes_f1 vs u hu with rfl | ⟨b, t, rfl, hb⟩ | ⟨n, t, rfl⟩
  · exact mkTailMatcher_nil _
  · exact mkTailMatcher_none_sep litEuro ';' b t hb (by decide) (by decide)
      (by decide) (fun c r hc => litEuro_none_of (by tauto) r)
  · exact mkTailMatcher_none_head _ _ _ (by decide)

theorem noP4_f1 (vs : List ℤ) :
    ∀ u, u <:+ extract_as_text Form.f1 vs → matchP4 u = none := by
  intro u hu
  show mkTailMatcher litEUR u = none
  rcases suffix_classes_f1 vs u hu with rfl | ⟨b, t, rfl, hb⟩ | ⟨n, t, rfl⟩
  · exact mkTailMatcher_nil _
  · exact mkTailMatcher_none_sep litEUR ';' b t hb (by decide) (by decide)
      (by decide) (fun c r hc => litEUR_none_of (by tauto) r)
  · exact mkTailMatcher_none_head _ _ _ (by decide)

theorem noP3_f2 (vs : List ℤ) :
    ∀ u, u <:+ extract_as_text Form.f2 vs → matchP3 u = none := by
  intro u hu
  show mkTailMatcher litEuro u = none
  rcases suffix_classes_f2 vs u hu with rfl | ⟨b, t, rfl, hb⟩ | ⟨c, t, rfl, hc⟩
  · exact mkTailMatcher_nil _
  · exact mkTailMatcher_none_sep litEuro ';' b t hb (by decide) (by decide)
      (by decide) (fun c r hc => litEuro_none_of (by tauto) r)
  · apply mkTailMatcher_none_head
    rcases hc with rfl | rfl | rfl | rfl <;> decide

theorem noP4_f2 (vs : List ℤ) :
    ∀ u, u <:+ extract_as_text Form.f2 vs → matchP4 u = none := by
  intro u hu
  show mkTailMatcher litEUR u = none
  rcases suffix_classes_f2 vs u hu with rfl | ⟨b, t, rfl, hb⟩ | ⟨c, t, rfl, hc⟩
  · exact mkTailMatcher_nil _
  · exact mkTailMatcher_none_sep litEUR ';' b t hb (by decide) (by decide)
      (by decide) (fun c r hc => litEUR_none_of (by tauto) r)
  · apply mkTailMatcher_none_head
    rcases hc with rfl | rfl | rfl | rfl <;> decide

theorem noP1_f3 (vs : List ℤ) :
    ∀ u, u <:+ extract_as_text Form.f3 vs → matchP1 u = none := by
  intro u hu
  show mkHeadMatcher litEuro u = none
  rcases suffix_classes_f3 vs u hu with rfl | ⟨b, t, rfl, hb⟩ | ⟨t, rfl⟩
  · exact mkHeadMatcher_none _ _ rfl
  · cases b with
    | nil =>
      exact mkHeadMatcher_stop litEuro _ ';' t (by simp [litEuro]) (by decide)
        (by decide)
    | cons c b' =>
      apply mkHeadMatcher_none
      apply litEuro_none_of
      rcases hb c (by simp) with h | h
      · exact Or.inl h
      · exact Or.inr (Or.inl h)
  · exact mkHeadMatcher_none _ _ (litEuro_none_of (by tauto) t)

theorem noP4_f3 (vs : List ℤ) :
    ∀ u, u <:+ extract_as_text Form.f3 vs → matchP4 u = none := by
  intro u hu
  show mkTailMatcher litEUR u = none
  rcases suffix_classes_f3 vs u hu with rfl | ⟨b, t, rfl, hb⟩ | ⟨t, rfl⟩
  · exact mkTailMatcher_nil _
  · exact mkTailMatcher_none_sep litEUR '€' b (';' :: t) hb (by decide)
      (by decide) (by decide) (fun c r hc => litEUR_none_of (by tauto) r)
  · exact mkTailMatcher_none_head _ _ _ (by decide)

theorem noP2_f4 (vs : List ℤ) :
    ∀ u, u <:+ extract_as_text Form.f4 vs → matchP2 u = none := by
  intro u hu
  show mkHeadMatcher litEUR u = none
  rcases suffix_classes_f4 vs u hu with rfl | ⟨b, t, rfl, hb⟩ | ⟨t, rfl⟩ |
    ⟨t, rfl⟩ | ⟨t, rfl⟩ | ⟨t, rfl⟩
  · exact mkHeadMatcher_none _ _ rfl
  · cases b with
    | nil =>
      exact mkHeadMatcher_none _ _ (litEUR_none_of (by tauto) _)
    | cons c b' =>
      apply mkHeadMatcher_none
      apply litEUR_none_of
      rcases hb c (by simp) with h | h
      · exact Or.inl h
      · exact Or.inr (Or.inl h)
  · exact mkHeadMatcher_stop litEUR _ ';' t (by simp [litEUR]) (by decide)
      (by decide)
  · exact mkHeadMatcher_none _ _ (litEUR_none_of (by tauto) _)
  · exact mkHeadMatcher_none _ _ (litEUR_none_of (by tauto) _)
  · exact mkHeadMatcher_none _ _ (litEUR_none_of (by tauto) _)

theorem noP3_f4 (vs : List ℤ) :
    ∀ u, u <:+ extract_as_text Form.f4 vs → matchP3 u = none := by
  intro u hu
  show mkTailMatcher litEuro u = none
  rcases suffix_classes_f4 vs u hu with rfl | ⟨b, t, rfl, hb⟩ | ⟨t, rfl⟩ |
    ⟨t, rfl⟩ | ⟨t, rfl⟩ | ⟨t, rfl⟩
  · exact mkTailMatcher_nil _
  · exact mkTailMatcher_none_sep_space litEuro b
      ('E' :: 'U' :: 'R' :: ';' :: t) hb ⟨'E', _, rfl, by decide⟩
      (fun c r hc => litEuro_none_of (by tauto) r)
      (litEuro_none_of (by tauto) _) (litEuro_none_of (by tauto) _)
  · exact mkTailMatcher_none_head _ _ _ (by decide)
  · exact mkTailMatcher_none_head _ _ _ (by decide)
  · exact mkTailMatcher_none_head _ _ _ (by decide)
  · exact mkTailMatcher_none_head _ _ _ (by decide)

/-! #### Claim C9: the active pattern finds exactly the rendered numerals -/

theorem scanAll_eq_of_some {p : List Char → Option (List Char × Nat)}
    {s cap : List Char} {k : Nat} (hne : s ≠ []) (h : p s = some (cap, k)) :
    scanAll p s = cap :: scanAll p (s.drop (max k 1)) := by
  cases s with
  | nil => exact absurd rfl hne
  | cons c rest => rw [scanAll_cons, h]

theorem scanAll_cons_none {p : List Char → Option (List Char × Nat)}
    {c : Char} {rest : List Char} (h : p (c :: rest) = none) :
    scanAll p (c :: rest) = scanAll p rest := by
  rw [scanAll_cons, h]

theorem numeral_ne_nil {v : ℤ} (h : euro 10 ≤ v) : numeralOf v ≠ [] := by
  obtain ⟨a, f, heq, ha, _, _⟩ := numeralOf_Numeral h
  rw [heq]
  cases a with
  | nil => exact absurd rfl ha
  | cons x a' => simp

theorem scanAll_f1 (vs : List ℤ) (hvs : ∀ v ∈ vs, euro 10 ≤ v) :
    scanAll matchP1 (extract_as_text Form.f1 vs) = vs.map numeralOf := by
  induction vs with
  | nil => rfl
  | cons v vs ih =>
    have hv := hvs v (by simp)
    have hn := numeralOf_Numeral hv
    rw [show extract_as_text Form.f1 (v :: vs) =
        '€' :: (numeralOf v ++ ';' :: extract_as_text Form.f1 vs) by
        simp [extract_as_text, renderItem]]
    have hm : matchP1
        ('€' :: (numeralOf v ++ ';' :: extract_as_text Form.f1 vs)) =
        some (numeralOf v, (numeralOf v).length + 1) := by
      show mkHeadMatcher litEuro _ = _
      have := mkHeadMatcher_item litEuro
        ('€' :: (numeralOf v ++ ';' :: extract_as_text Form.f1 vs))
        [] (numeralOf v) (';' :: extract_as_text Form.f1 vs)
        (by simp [litEuro]) (by simp) hn
        (Or.inr ⟨';', _, rfl, by decide, by decide⟩)
      rw [this]
      congr 1
      simp
      omega
    rw [scanAll_eq_of_some (by simp) hm]
    congr 1
    rw [show max ((numeralOf v).length + 1) 1 = (numeralOf v).length + 1 by
        omega]
    rw [show '€' :: (numeralOf v ++ ';' :: extract_as_text Form.f1 vs) =
        ('€' :: numeralOf v) ++ (';' :: extract_as_text Form.f1 vs) by simp]
    rw [List.drop_left' (by simp)]
    rw [scanAll_cons_none (p := matchP1)
        (mkHeadMatcher_none _ _ (litEuro_none_of (by tauto) _))]
    exact ih (fun w hw => hvs w (by simp [hw]))

theorem scanAll_f2 (vs : List ℤ) (hvs : ∀ v ∈ vs, euro 10 ≤ v) :
    scanAll matchP2 (extract_as_text Form.f2 vs) = vs.map numeralOf := by
  induction vs with
  | nil => rfl
  | cons v vs ih =>
    have hv := hvs v (by simp)
    have hn := numeralOf_Numeral hv
    rw [show extract_as_text Form.f2 (v :: vs) =
        'E' :: 'U' :: 'R' :: ' ' ::
          (numeralOf v ++ ';' :: extract_as_text Form.f2 vs) by
        simp [extract_as_text, renderItem]]
    have hm : matchP2
        ('E' :: 'U' :: 'R' :: ' ' ::
          (numeralOf v ++ ';' :: extract_as_text Form.f2 vs)) =
        some (numeralOf v, (numeralOf v).length + 4) := by
      show mkHeadMatcher litEUR _ = _
      have := mkHeadMatcher_item litEUR
        ('E' :: 'U' :: 'R' :: ' ' ::
          (numeralOf v ++ ';' :: extract_as_text Form.f2 vs))
        [' '] (numeralOf v) (';' :: extract_as_text Form.f2 vs)
        (by simp [litEUR]) (by decide) hn
        (Or.inr ⟨';', _, rfl, by decide, by decide⟩)
      rw [this]
      congr 1
      simp
      omega
    rw [scanAll_eq_of_some (by simp) hm]
    congr 1
    rw [show max ((numeralOf v).length + 4) 1 = (numeralOf v).length + 4 by
        omega]
    rw [show 'E' :: 'U' :: 'R' :: ' ' ::
          (numeralOf v ++ ';' :: extract_as_text Form.f2 vs) =
        ('E' :: 'U' :: 'R' :: ' ' :: numeralOf v) ++
          (';' :: extract_as_text Form.f2 vs) by simp]
    rw [List.drop_left' (by simp)]
    rw [scanAll_cons_none (p := matchP2)
        (mkHeadMatcher_none _ _ (litEUR_none_of (by tauto) _))]
    exact ih (fun w hw => hvs w (by simp [hw]))

theorem scanAll_f3 (vs : List ℤ) (hvs : ∀ v ∈ vs, euro 10 ≤ v) :
    scanAll matchP3 (extract_as_text Form.f3 vs) = vs.map numeralOf := by
  induction vs with
  | nil => rfl
  | cons v vs ih =>
    have hv := hvs v (by simp)
    have hn := numeralOf_Numeral hv
    rw [show extract_as_text Form.f3 (v :: vs) =
        numeralOf v ++ ('€' :: ';' :: extract_as_text Form.f3 vs) by
        simp [extract_as_text, renderItem]]
    have hm : matchP3
        (numeralOf v ++ ('€' :: ';' :: extract_as_text Form.f3 vs)) =
        some (numeralOf v, (numeralOf v).length + 1) := by
      show mkTailMatcher litEuro _ = _
      have := mkTailMatcher_item litEuro (numeralOf v) []
        ('€' :: ';' :: extract_as_text Form.f3 vs)
        (';' :: extract_as_text Form.f3 vs) hn (by simp)
        (Or.inr ⟨'€', _, rfl, by decide⟩)
        (Or.inr ⟨'€', _, rfl, by decide, by decide⟩)
        (by simp [litEuro])
      rw [show ([] : List Char) ++ '€' :: ';' :: extract_as_text Form.f3 vs =
          '€' :: ';' :: extract_as_text Form.f3 vs from rfl] at this
      rw [this]
      congr 1
      simp
      omega
    rw [scanAll_eq_of_some
        (by cases hnn : numeralOf v with
            | nil => exact absurd hnn (numeral_ne_nil hv)
            | cons x n' => simp)
        hm]
    congr 1
    rw [show max ((numeralOf v).length + 1) 1 = (numeralOf v).length + 1 by
        omega]
    rw [show numeralOf v ++ ('€' :: ';' :: extract_as_text Form.f3 vs) =
        (numeralOf v ++ ['€']) ++ (';' :: extract_as_text Form.f3 vs) by simp]
    rw [List.drop_left' (by simp)]
    rw [scanAll_cons_none (p := matchP3)
        (mkTailMatcher_none_head _ _ _ (by decide))]
    exact ih (fun w hw => hvs w (by simp [hw]))

theorem scanAll_f4 (vs : List ℤ) (hvs : ∀ v ∈ vs, euro 10 ≤ v) :
    scanAll matchP4 (extract_as_text Form.f4 vs) = vs.map numeralOf := by
  induction vs with
  | nil => rfl
  | cons v vs ih =>
    have hv := hvs v (by simp)
    have hn := numeralOf_Numeral hv
    rw [show extract_as_text Form.f4 (v :: vs) =
        numeralOf v ++
          (' ' :: 'E' :: 'U' :: 'R' :: ';' :: extract_as_text Form.f4 vs) by
        simp [extract_as_text, renderItem]]
    have hm : matchP4
        (numeralOf v ++
          (' ' :: 'E' :: 'U' :: 'R' :: ';' :: extract_as_text Form.f4 vs)) =
        some (numeralOf v, (numeralOf v).length + 4) := by
      show mkTailMatcher litEUR _ = _
      have := mkTailMatcher_item litEUR (numeralOf v) [' ']
        ('E' :: 'U' :: 'R' :: ';' :: extract_as_text Form.f4 vs)
        (';' :: extract_as_text Form.f4 vs) hn (by decide)
        (Or.inr ⟨'E', _, rfl, by decide⟩)
        (Or.inr ⟨' ', _, rfl, by decide, by decide⟩)
        (by simp [litEUR])
      rw [show ([' '] : List Char) ++
          'E' :: 'U' :: 'R' :: ';' :: extract_as_text Form.f4 vs =
          ' ' :: 'E' :: 'U' :: 'R' :: ';' :: extract_as_text Form.f4 vs from
          rfl] at this
      rw [this]
      congr 1
      simp
      omega
    rw [scanAll_eq_of_some
        (by cases hnn : numeralOf v with
            | nil => exact absurd hnn (numeral_ne_nil hv)
            | cons x n' => simp)
        hm]
    congr 1
    rw [show max ((numeralOf v).length + 4) 1 = (numeralOf v).length + 4 by
        omega]
    rw [show numeralOf v ++
          (' ' :: 'E' :: 'U' :: 'R' :: ';' :: extract_as_text Form.f4 vs) =
        (numeralOf v ++ [' ', 'E', 'U', 'R']) ++
          (';' :: extract_as_text Form.f4 vs) by simp]
    rw [List.drop_left' (by simp)]
    rw [scanAll_cons_none (p := matchP4)
        (mkTailMatcher_none_head _ _ _ (by decide))]
    exact ih (fun w hw => hvs w (by simp [hw]))

theorem foundOf_nil {p : List Char → Option (List Char × Nat)}
    {text : List Char} (h : scanAll p text = []) : foundOf p text = [] := by
  unfold foundOf
  rw [h]
  rfl

theorem filterMap_numerals (vs : List ℤ)
    (hvs : ∀ v ∈ vs, euro 10 ≤ v ∧ v ≤ euro 50000) :
    (vs.map numeralOf).filterMap (fun cap => (parseRaw cap).bind (fun v =>
      if euro 10 ≤ v ∧ v ≤ euro 50000 then some v else none)) = vs := by
  induction vs with
  | nil => rfl
  | cons v vs ih =>
    have hb := hvs v (by simp)
    have hf : (parseRaw (numeralOf v)).bind (fun w =>
        if euro 10 ≤ w ∧ w ≤ euro 50000 then some w else none) = some v := by
      rw [parseRaw_numeralOf hb.1]
      simp [hb.1, hb.2]
    rw [List.map_cons, List.filterMap_cons, hf]
    rw [ih (fun w hw => hvs w (by simp [hw]))]

theorem foundOf_map {p : List Char → Option (List Char × Nat)}
    {text : List Char} {vs : List ℤ}
    (hscan : scanAll p text = vs.map numeralOf)
    (hvs : ∀ v ∈ vs, euro 10 ≤ v ∧ v ≤ euro 50000) : foundOf p text = vs := by
  unfold foundOf
  rw [hscan]
  exact filterMap_numerals vs hvs

/-- C9: extraction is idempotent under re-rendering: for every input
text, rendering the extracted price set back to text in any of the four
recognized currency forms and extracting again yields the same price
set.  (`extract_as_text` is modelled from the spec, src/ has no such
function.) -/
theorem C9_extraction_idempotent (f : Form) (t : List Char) :
    _extract_prices_from_text
        (extract_as_text f (_extract_prices_from_text t)) =
      _extract_prices_from_text t := by
  have hb := extract_bounds t
  have hlo : ∀ v ∈ _extract_prices_from_text t, euro 10 ≤ v :=
    fun v hv => (hb v hv).1
  have hchain : List.Chain' (· < ·) (_extract_prices_from_text t) :=
    chain_sortedSet _
  cases f with
  | f1 =>
    show sortedSet _ = _
    rw [foundOf_map (scanAll_f1 _ hlo) hb,
        foundOf_nil (scanAll_eq_nil (noP2_f1 _)),
        foundOf_nil (scanAll_eq_nil (noP3_f1 _)),
        foundOf_nil (scanAll_eq_nil (noP4_f1 _))]
    simp only [List.append_nil]
    exact sortedSet_of_chain _ hchain
  | f2 =>
    show sortedSet _ = _
    rw [foundOf_map (scanAll_f2 _ hlo) hb,
        foundOf_nil (scanAll_eq_nil (noP1_f2 _)),
        foundOf_nil (scanAll_eq_nil (noP3_f2 _)),
        foundOf_nil (scanAll_eq_nil (noP4_f2 _))]
    simp only [List.append_nil, List.nil_append]
    exact sortedSet_of_chain _ hchain
  | f3 =>
    show sortedSet _ = _
    rw [foundOf_map (scanAll_f3 _ hlo) hb,
        foundOf_nil (scanAll_eq_nil (noP1_f3 _)),
        foundOf_nil (scanAll_eq_nil (noP2_f3 _)),
        foundOf_nil (scanAll_eq_nil (noP4_f3 _))]
    simp only [List.append_nil, List.nil_append]
    exact sortedSet_of_chain _ hchain
  | f4 =>
    show sortedSet _ = _
    rw [foundOf_map (scanAll_f4 _ hlo) hb,
        foundOf_nil (scanAll_eq_nil (noP1_f4 _)),
        foundOf_nil (scanAll_eq_nil (noP2_f4 _)),
        foundOf_nil (scanAll_eq_nil (noP3_f4 _))]
    simp only [List.append_nil, List.nil_append]
    exact sortedSet_of_chain _ hchain

end TicketAlert
